import Mathlib

/-!
# Verification of the cmake_node_editor core

Shallow embedding of the algorithmic core of the `cmake_node_editor`
repository, together with proofs and refutations of the claims made by its
natural-language specification.

The embedding covers:

* the data model of `cmake_node_editor/datas.py` (`BuildSettings`, `NodeData`,
  `CommandData`, `NodeCommands`, `ProjectCommands`, `SubprocessLogData`,
  `SubprocessResponseData`);
* the graph model of `cmake_node_editor/node_scene.py` (`NodeScene.addNewNode`,
  `NodeScene.removeNode`, `NodeScene.addEdge`, `NodeScene.topologicalSort`,
  the `nodeCounter` reset of `NodeScene.loadProjectFromJson`);
* the build-plan compiler of `cmake_node_editor/node_editor_window.py`
  (`NodeEditorWindow.onBuildAll`, `NodeEditorWindow.onAddNodeDialog`,
  `NodeEditorWindow.onApplyNodeProperties`);
* the worker of `cmake_node_editor/worker.py` (`CommandExecutor.execute` and
  the `ProjectCommands` branch of `worker_main`);
* a small reference-semantics model for the `BuildSettings` object sharing
  between `NodeEditorWindow.onAddNodeDialog`, `NodeScene.addNewNode` and
  `BatchEditDialog.applyToNodes`.

Python dictionaries preserve insertion order, Python `int` is unbounded
(embedded as `Int` where a value can go below zero, `Nat` otherwise), and the
GUI / rendering layer (positions, pens, pins' pixel geometry) carries no
algorithmic content and is omitted.  Qt object identity of a `NodeItem` is
represented by its `node_id`, which is unique in every scene the application
can build; object identity of `BuildSettings` values is modelled explicitly
(by a store index) only in the reference-semantics section, everything else
reads build settings without mutating them, where value semantics coincide
with Python's reference semantics.
-/

/-- `datas.BuildSettings` (datas.py, lines 6-15). -/
structure BuildSettings where
  build_dir : String
  install_dir : String
  build_type : String
  prefix_path : String
  toolchain_file : String
  generator : String
  c_compiler : String
  cxx_compiler : String
deriving DecidableEq, Repr

/-- `datas.NodeData` (datas.py, lines 17-27).  The `pos_x`/`pos_y` fields are
owned by presentation only (spec §3) and are not read by any claim, they are
omitted. -/
structure NodeData where
  node_id : Nat
  title : String
  cmake_options : List String
  project_path : String
  build_settings : BuildSettings
  code_before_build : String
  code_after_install : String
deriving DecidableEq, Repr

/-- `datas.CommandData` (datas.py, lines 35-39): `cmd` is `str | list[str]`
(a script text or an argument vector). -/
structure CommandData where
  type : String
  cmd : String ⊕ List String
  display_name : String
deriving DecidableEq, Repr

/-- `datas.NodeCommands` (datas.py, lines 41-45). -/
structure NodeCommands where
  index : Int
  node_data : NodeData
  cmd_list : List CommandData
deriving DecidableEq, Repr

/-- `datas.ProjectCommands` (datas.py, lines 47-51). -/
structure ProjectCommands where
  start_node_id : Int
  end_node_id : Int := -1
  node_commands_list : List NodeCommands
deriving DecidableEq, Repr

/-- `datas.SubprocessLogData` (datas.py, lines 59-62). -/
structure SubprocessLogData where
  index : Int
  log : String
deriving DecidableEq, Repr

/-- `datas.SubprocessResponseData` (datas.py, lines 53-56). -/
structure SubprocessResponseData where
  index : Int
  result : Bool
deriving DecidableEq, Repr

/-- A message placed on the worker's result queue: the tagged union of log
events and result events (spec §6, worker.py). -/
inductive QueueMsg where
  | log (data : SubprocessLogData)
  | res (data : SubprocessResponseData)
deriving DecidableEq, Repr

/-- `os.path.join` for two components, POSIX behaviour: an absolute second
component replaces the first, otherwise a single separator is inserted
unless the first part is empty or already ends with one. -/
def ospJoin (a b : String) : String :=
  if b.data.head? = some '/' then b
  else if a = "" then b
  else if a.data.getLast? = some '/' then a ++ b
  else a ++ "/" ++ b

/-- The default `BuildSettings` built by `NodeScene.addNewNode`
(node_scene.py, lines 379-387); `cwd` abstracts `os.getcwd()`. -/
def defaultBuildSettings (cwd : String) : BuildSettings :=
  { build_dir := ospJoin cwd "build"
    install_dir := ospJoin cwd "install"
    build_type := "Debug"
    prefix_path := ospJoin cwd "install"
    toolchain_file := ""
    generator := ""
    c_compiler := ""
    cxx_compiler := "" }

/-- The state of a `NodeScene` (node_scene.py): the node list in insertion
order, the edge list in insertion order as ordered pairs of node ids
(`Edge.edgeData`), and the class-level id counter `NodeScene.nodeCounter`. -/
structure Scene where
  nodes : List NodeData
  edges : List (Nat × Nat)
  counter : Nat
deriving DecidableEq, Repr

/-- The freshly started application: no nodes, no edges,
`NodeScene.nodeCounter = 1` (node_scene.py, line 331). -/
def emptyScene : Scene := { nodes := [], edges := [], counter := 1 }

/-- The node ids of a scene, in insertion order. -/
def Scene.ids (sc : Scene) : List Nat := sc.nodes.map (·.node_id)

/-- `NodeScene.addNewNode` (node_scene.py, lines 373-401): allocate
`nodeCounter` as the id, bump the counter, append the node.  The geometric
placement at (100, 100) is presentation only. -/
def Scene.addNewNode (sc : Scene) (title : String) (cmake_options : List String)
    (project_path : String) (bs : BuildSettings) : Scene :=
  { sc with
      nodes := sc.nodes ++ [{ node_id := sc.counter, title := title,
                              cmake_options := cmake_options,
                              project_path := project_path,
                              build_settings := bs,
                              code_before_build := "",
                              code_after_install := "" }]
      counter := sc.counter + 1 }

/-- `NodeScene.removeNode` (node_scene.py, lines 403-419): if the node is in
the scene, drop every edge incident to it and then the node itself. -/
def Scene.removeNode (sc : Scene) (i : Nat) : Scene :=
  if sc.nodes.any (fun n => n.node_id == i) then
    { sc with
        nodes := sc.nodes.filter (fun n => !(n.node_id == i))
        edges := sc.edges.filter (fun e => !(e.1 == i) && !(e.2 == i)) }
  else sc

/-- `NodeScene.addEdge` (node_scene.py, lines 421-436).  The source checks
`source_pin.parent_node == target_pin.parent_node` (self loop) and then
scans `self.edges` for an edge with the same source and target pins
(each node owns exactly one output and one input pin, so pin identity is
exactly the ordered pair of node ids).  Rejection returns without touching
the scene and without signalling anything. -/
def Scene.addEdge (sc : Scene) (s t : Nat) : Scene :=
  if s == t then sc
  else if sc.edges.contains (s, t) then sc
  else { sc with edges := sc.edges ++ [(s, t)] }

/-- The `nodeCounter` recomputation of `NodeScene.loadProjectFromJson`
(node_scene.py, lines 523-527): reset to 1, then take
`max(nodeCounter, node_id + 1)` over every node record of the file. -/
def loadCounter (nds : List NodeData) : Nat :=
  nds.foldl (fun a nd => max a (nd.node_id + 1)) 1

/-- `NodeScene.loadProjectFromJson` (node_scene.py, lines 509-567) restricted
to the model state: clear the scene, reset the counter from the file's ids,
adopt the node records, then `addEdge` every edge record whose two node ids
are both present. -/
def loadProject (nds : List NodeData) (eds : List (Nat × Nat)) : Scene :=
  let base : Scene := { nodes := nds, edges := [], counter := loadCounter nds }
  eds.foldl
    (fun sc e =>
      if (sc.nodes.any (fun n => n.node_id == e.1))
          && (sc.nodes.any (fun n => n.node_id == e.2)) then
        sc.addEdge e.1 e.2
      else sc)
    base

/-- `NodeEditorWindow.onAddNodeDialog` (node_editor_window.py, lines 505-532)
on the accepted, no-inheritance path (`inherit_idx < 0`): default an empty
name to `Node_{nodeCounter}`, reject a duplicate title with a warning box
(`none`, nothing added), otherwise `addNewNode` with the default build
settings. -/
def onAddNodeDialog (cwd : String) (sc : Scene) (rawName : String)
    (opts : List String) (path : String) : Option Scene :=
  let name := if rawName = "" then "Node_" ++ toString sc.counter else rawName
  if sc.nodes.any (fun n => n.title == name) then none
  else some (sc.addNewNode name opts path (defaultBuildSettings cwd))

/-- Retitle the node with id `i` (the source mutates
`self.current_node._data.title` through `NodeItem.updateTitle`; node ids are
unique in every reachable scene, so the id identifies the object). -/
def Scene.setTitle (sc : Scene) (i : Nat) (t : String) : Scene :=
  { sc with
      nodes := sc.nodes.map (fun n =>
        if n.node_id == i then { n with title := t } else n) }

/-- The title-handling part of `NodeEditorWindow.onApplyNodeProperties`
(node_editor_window.py, lines 602-612), for the selected node `i`:
an empty (stripped) input is replaced by `Node_{id}` WITHOUT the duplicate
check (the check sits in the `elif` branch); a non-empty input that collides
with a different node's title is rejected (scene unchanged); otherwise the
title is applied. -/
def onApplyNodeProperties (sc : Scene) (i : Nat) (rawTitle : String) : Scene :=
  if rawTitle = "" then
    sc.setTitle i ("Node_" ++ toString i)
  else if sc.nodes.any (fun n => n.title == rawTitle && !(n.node_id == i)) then
    sc
  else
    sc.setTitle i rawTitle

/-! ## Topological sort (`NodeScene.topologicalSort`, node_scene.py 447-482)

Kahn's algorithm: build the adjacency lists and in-degrees from the edge
list, seed a FIFO `deque` with the zero-in-degree nodes in node insertion
order (Python dictionaries iterate in insertion order, and
`adjacency`/`in_degree` are keyed in the order of `self.nodes`), repeatedly
pop the front, append it to the result and decrement each child's
in-degree, enqueueing a child the moment its in-degree reaches zero.
If fewer nodes come out than exist, a cycle was detected (`None`).

The node objects are represented by their ids (unique in every reachable
scene).  The `while queue:` loop is embedded with explicit fuel; fuel
`|nodes| + 1` is provably never exhausted (each popped node is popped at
most once, see `kahnLoop_spec`), so the embedding returns exactly what the
source loop returns. -/

/-- The adjacency list of `n`: the targets of the edges whose source is `n`,
in edge insertion order (node_scene.py, lines 459-463). -/
def adjOf (edges : List (Nat × Nat)) (n : Nat) : List Nat :=
  (edges.filter (fun e => e.1 == n)).map (fun e => e.2)

/-- The initial in-degree of `n`: the number of edges targeting `n`
(node_scene.py, lines 459-463).  Python ints are embedded as `Int` because
the loop decrements them blindly. -/
def indegInit (edges : List (Nat × Nat)) (n : Nat) : Int :=
  ((edges.filter (fun e => e.2 == n)).length : Int)

/-- The inner `for child in adjacency[node]` loop (node_scene.py, lines
474-477): decrement each child's in-degree in order, appending a child to
the FIFO queue exactly when its in-degree becomes zero. -/
def processChildren (children : List Nat) (indeg : Nat → Int) (queue : List Nat) :
    (Nat → Int) × List Nat :=
  match children with
  | [] => (indeg, queue)
  | c :: cs =>
      let indeg2 : Nat → Int := fun m => if m = c then indeg m - 1 else indeg m
      let queue2 := if indeg2 c = 0 then queue ++ [c] else queue
      processChildren cs indeg2 queue2

/-- The `while queue:` loop (node_scene.py, lines 471-477), with fuel. -/
def kahnLoop (adj : Nat → List Nat) : Nat → List Nat → (Nat → Int) → List Nat → List Nat
  | 0, _, _, result => result
  | _ + 1, [], _, result => result
  | fuel + 1, n :: qs, indeg, result =>
      let step := processChildren (adj n) indeg qs
      kahnLoop adj fuel step.2 step.1 (result ++ [n])

/-- `NodeScene.topologicalSort` (node_scene.py, lines 447-482), returning the
ids of the sorted nodes; `none` is the source's `None` (cycle detected). -/
def Scene.topologicalSort (sc : Scene) : Option (List Nat) :=
  let indeg := indegInit sc.edges
  let queue := sc.ids.filter (fun n => indeg n == 0)
  let result := kahnLoop (adjOf sc.edges) (sc.ids.length + 1) queue indeg []
  if result.length < sc.ids.length then none else some result

/-- The node records in topologically sorted order, as consumed by
`NodeEditorWindow.onBuildAll` (the Python result holds the node objects
themselves; with unique ids the id lookup reproduces it). -/
def Scene.sortedNodes (sc : Scene) : Option (List NodeData) :=
  (sc.topologicalSort).map (fun l =>
    l.filterMap (fun i => sc.nodes.find? (fun n => n.node_id == i)))

/-! ## Build-plan compilation (`NodeEditorWindow.onBuildAll`,
node_editor_window.py 656-806)

The handler sorts the scene, resolves the optional start node id typed into
the `Start Node ID` field, compiles one `NodeCommands` group per node in
sorted order (validating each node's project path on the way), and only then
spawns the worker process and puts the `ProjectCommands` on its task queue.
A validation failure shows a message box and returns: no plan exists,
no worker is started, nothing is queued.  The embedding returns
`Except BuildError ProjectCommands`; the `.ok` payload is exactly the object
that the source puts on the task queue, and every early `return` of the
source is an `.error`. -/

/-- The filesystem facts `onBuildAll` consults: which paths are existing
directories (`os.path.isdir`) and which are existing files
(`os.path.exists` on the marker file). -/
structure FileSystem where
  dirs : List String
  files : List String
deriving DecidableEq, Repr

/-- The early exits of `onBuildAll`: the cycle message box (line 666), the
invalid-project-path / missing-CMakeLists.txt boxes (lines 717, 722, tagged
with the node title), and the `No commands to build` box (line 782). -/
inductive BuildError where
  | cycleDetected
  | invalidProjectPath (title : String)
  | noCommands
deriving DecidableEq, Repr

/-- Project-path validation (node_editor_window.py, lines 715-723):
`project_path` must be non-empty (Python truthiness of `not project_dir`),
an existing directory, and contain `CMakeLists.txt` at its root. -/
def validProject (fs : FileSystem) (nd : NodeData) : Bool :=
  !(nd.project_path == "") && fs.dirs.contains nd.project_path
    && fs.files.contains (ospJoin nd.project_path "CMakeLists.txt")

/-- The per-node output directory `os.path.join(build_root, project_name,
build_type)` (line 725). -/
def nodeBuildDir (nd : NodeData) : String :=
  ospJoin (ospJoin nd.build_settings.build_dir nd.title) nd.build_settings.build_type

/-- The per-node install prefix `os.path.join(install_root, build_type)`
(line 726). -/
def nodeInstallDir (nd : NodeData) : String :=
  ospJoin nd.build_settings.install_dir nd.build_settings.build_type

/-- The configure argument vector (node_editor_window.py, lines 730-748):
the base vector, `["-G", generator]` spliced in at position 1 when the
generator is non-empty (`cmd_configure[1:1] = ...`), then the compiler,
toolchain and prefix-path flags each appended only when non-empty, then
every raw `cmake_options` entry verbatim and in order. -/
def cmdConfigure (nd : NodeData) : List String :=
  let bs := nd.build_settings
  let c0 := ["cmake", "-S", nd.project_path, "-B", nodeBuildDir nd,
             "-DCMAKE_BUILD_TYPE:STRING=" ++ bs.build_type,
             "-DCMAKE_INSTALL_PREFIX=" ++ nodeInstallDir nd]
  let c1 := if bs.generator == "" then c0
            else c0.take 1 ++ ["-G", bs.generator] ++ c0.drop 1
  let c2 := c1 ++ (if bs.c_compiler == "" then []
                   else ["-DCMAKE_C_COMPILER:FILEPATH=" ++ bs.c_compiler])
  let c3 := c2 ++ (if bs.cxx_compiler == "" then []
                   else ["-DCMAKE_CXX_COMPILER:FILEPATH=" ++ bs.cxx_compiler])
  let c4 := c3 ++ (if bs.toolchain_file == "" then []
                   else ["-DCMAKE_TOOLCHAIN_FILE=" ++ bs.toolchain_file])
  let c5 := c4 ++ (if bs.prefix_path == "" then []
                   else ["-DCMAKE_PREFIX_PATH=" ++ bs.prefix_path])
  c5 ++ nd.cmake_options

/-- The build argument vector (lines 755-759); `cpu` abstracts
`multiprocessing.cpu_count()`. -/
def cmdBuild (cpu : Nat) (nd : NodeData) : List String :=
  ["cmake", "--build", nodeBuildDir nd,
   "--config", nd.build_settings.build_type,
   "--parallel", toString cpu]

/-- The install argument vector (line 765). -/
def cmdInstall (nd : NodeData) : List String :=
  ["cmake", "--install", nodeBuildDir nd, "--config", nd.build_settings.build_type]

/-- `str.strip()` on script text, used only to test for blankness; the model
keeps the source text and treats whitespace-only as blank via
`String.trim`. -/
def isBlank (s : String) : Bool := s.trim == ""

/-- The `NodeCommands` group compiled for one node (lines 692-779):
optional pre-build script, configure, build, install, optional post-install
script. -/
def nodeCommandsFor (cpu : Nat) (nd : NodeData) : NodeCommands :=
  { index := (nd.node_id : Int)
    node_data := nd
    cmd_list :=
      (if isBlank nd.code_before_build then []
       else [{ type := "script", cmd := .inl nd.code_before_build,
               display_name := "Pre-Build Script " ++ nd.title }])
      ++ [{ type := "cmd", cmd := .inr (cmdConfigure nd),
            display_name := "Configure " ++ nd.title },
          { type := "cmd", cmd := .inr (cmdBuild cpu nd),
            display_name := "Build " ++ nd.title },
          { type := "cmd", cmd := .inr (cmdInstall nd),
            display_name := "Install " ++ nd.title }]
      ++ (if isBlank nd.code_after_install then []
          else [{ type := "script", cmd := .inl nd.code_after_install,
                  display_name := "Post-Install Script " ++ nd.title }]) }

/-- The `for node_obj in sorted_nodes[start_index:]` loop (lines 691-779):
each node is validated just before its cmake commands are assembled, and the
first invalid node aborts the whole compile. -/
def compileNodes (fs : FileSystem) (cpu : Nat) :
    List NodeData → Except BuildError (List NodeCommands)
  | [] => .ok []
  | nd :: rest =>
      if validProject fs nd then
        match compileNodes fs cpu rest with
        | .error e => .error e
        | .ok tail => .ok (nodeCommandsFor cpu nd :: tail)
      else .error (.invalidProjectPath nd.title)

/-- Resolution of the `Start Node ID` field (lines 669-683): `none` models a
blank field (and the `ValueError` branch behaves the same way); a parsed id
that is found in the sorted sequence yields its index, and an id that is NOT
found only warns (`building from beginning`) and keeps index 0. -/
def resolveStartIndex (order : List NodeData) (sid : Option Int) : Nat :=
  match sid with
  | none => 0
  | some v =>
      match order.findIdx? (fun n => (n.node_id : Int) == v) with
      | some i => i
      | none => 0

/-- The `start_id` recorded in the plan (lines 669-686): the parsed id when
it was found, otherwise `-1`. -/
def resolveStartId (order : List NodeData) (sid : Option Int) : Int :=
  match sid with
  | none => -1
  | some v => if order.any (fun n => (n.node_id : Int) == v) then v else -1

/-- `NodeEditorWindow.onBuildAll` (node_editor_window.py, lines 656-806) up
to the point where the plan is handed to the worker: the returned `.ok`
value is the `ProjectCommands` put on the task queue; every `.error` is an
early `return` before any worker process exists. -/
def onBuildAll (fs : FileSystem) (cpu : Nat) (sc : Scene) (sid : Option Int) :
    Except BuildError ProjectCommands :=
  match sc.sortedNodes with
  | none => .error .cycleDetected
  | some order =>
      match compileNodes fs cpu (order.drop (resolveStartIndex order sid)) with
      | .error e => .error e
      | .ok cmds =>
          if cmds.isEmpty then .error .noCommands
          else .ok { start_node_id := resolveStartId order sid,
                     node_commands_list := cmds }

/-! ## The worker (`worker.py`)

`CommandExecutor.execute` runs one `CommandData` and reports a boolean
verdict, placing log messages on the result queue as it goes.  The two
external collaborators are `exec(...)` with captured stdout (for `"script"`
steps) and `subprocess.run(...)` (for `"cmd"` steps); both can raise.  The
embedding threads the emitted log list explicitly and separates the body
(which can end in an uncaught Python exception) from the `try/except`
wrapper, which converts any exception into a failure verdict after logging
the message and the formatted traceback. -/

/-- A raised Python exception as observed by the `except` handler: `str(e)`
and the output of `traceback.format_exception`. -/
structure PyExc where
  msg : String
  traceback : String
deriving DecidableEq, Repr

/-- The outcome of `subprocess.run(..., check=False, capture_output=True,
text=True)`. -/
structure RunResult where
  returncode : Int
  stdout : String
  stderr : String
deriving DecidableEq, Repr

/-- The external collaborators of `CommandExecutor.execute`: running a child
process and `exec`-ing a script with redirected stdout.  Either may raise. -/
structure Collaborators where
  runProcess : String ⊕ List String → Except PyExc RunResult
  runScript : String ⊕ List String → Except PyExc String

/-- The body of `CommandExecutor.execute` (worker.py, lines 36-69), without
the surrounding `try/except`: the verdict, or the uncaught exception, plus
the logs emitted before returning/raising. -/
def executeBody (cb : Collaborators) (cd : CommandData) :
    Except PyExc Bool × List SubprocessLogData :=
  if cd.type == "script" then
    let l0 : List SubprocessLogData :=
      [⟨-1, "[Worker] Executing script: " ++ cd.display_name⟩]
    match cb.runScript cd.cmd with
    | .error e => (.error e, l0)
    | .ok out =>
        let l1 := l0 ++ (if out == "" then [] else [⟨-1, out⟩])
        (.ok true,
         l1 ++ [⟨-1, "[Worker] Script executed successfully: " ++ cd.display_name⟩])
  else if cd.type == "cmd" then
    let l0 : List SubprocessLogData :=
      [⟨-1, "[Worker] Executing command: " ++ cd.display_name ++ "\n"
            ++ (match cd.cmd with | .inl s => s | .inr args => String.intercalate " " args)⟩]
    match cb.runProcess cd.cmd with
    | .error e => (.error e, l0)
    | .ok r =>
        let l1 := l0 ++ (if r.stdout == "" then [] else [⟨-1, r.stdout⟩])
        let l2 := l1 ++ (if r.stderr == "" then [] else [⟨-1, r.stderr⟩])
        if r.returncode = 0 then
          (.ok true, l2 ++ [⟨-1, "[Worker] Command succeeded: " ++ cd.display_name⟩])
        else
          (.ok false,
           l2 ++ [⟨-1, "[Worker] Command failed: " ++ cd.display_name
                      ++ ", returncode=" ++ toString r.returncode⟩])
  else
    (.ok false, [⟨-1, "[Worker] Unknown command type: " ++ cd.type⟩])

/-- The log line the `except` handler emits (worker.py, lines 70-74). -/
def excLog (cd : CommandData) (e : PyExc) : SubprocessLogData :=
  ⟨-1, "[Worker] Exception while executing command: " ++ cd.display_name
       ++ "\n" ++ e.msg ++ "\n" ++ e.traceback⟩

/-- `CommandExecutor.execute` (worker.py, lines 34-74): the body wrapped in
`try/except`, so the call itself always returns a verdict. -/
def execute (cb : Collaborators) (cd : CommandData) : Bool × List SubprocessLogData :=
  match executeBody cb cd with
  | (.ok b, logs) => (b, logs)
  | (.error e, logs) => (false, logs ++ [excLog cd e])

/-- The inner `for cmdData in node_cmds.cmd_list` loop of `worker_main`
(worker.py, lines 193-199): run the steps sequentially, stopping at the
first failure; returns the group verdict and the queue messages emitted by
the steps. -/
def runGroupSteps (cb : Collaborators) : List CommandData → Bool × List QueueMsg
  | [] => (true, [])
  | cd :: rest =>
      let r := execute cb cd
      if r.1 then
        let t := runGroupSteps cb rest
        (t.1, r.2.map .log ++ t.2)
      else (false, r.2.map .log)

/-- The outer `for idx, node_cmds in enumerate(task.node_commands_list)`
loop (worker.py, lines 191-203), from plan position `k`: a failing group
emits `SubprocessResponseData(idx, False)` and stops everything, a clean
group emits `SubprocessResponseData(idx, True)`; the second component is
`build_failed` at loop exit. -/
def runGroupsFrom (cb : Collaborators) (k : Int) :
    List NodeCommands → List QueueMsg × Bool
  | [] => ([], false)
  | g :: gs =>
      let r := runGroupSteps cb g.cmd_list
      if r.1 then
        let t := runGroupsFrom cb (k + 1) gs
        (r.2 ++ [.res ⟨k, true⟩] ++ t.1, t.2)
      else (r.2 ++ [.res ⟨k, false⟩], true)

/-- The `isinstance(task, ProjectCommands)` branch of `worker_main`
(worker.py, lines 186-209): the start log, the per-group events, and the
whole-plan sentinel `SubprocessResponseData(-1, ...)` (preceded by the
success log when everything passed). -/
def runProjectCommands (cb : Collaborators) (task : ProjectCommands) : List QueueMsg :=
  let start : List QueueMsg :=
    [.log ⟨-1, "[Worker] Start executing ProjectCommands..."⟩]
  let r := runGroupsFrom cb 0 task.node_commands_list
  if r.2 then
    start ++ r.1 ++ [.res ⟨-1, false⟩]
  else
    start ++ r.1
      ++ [.log ⟨-1, "[Worker] All commands succeeded!"⟩, .res ⟨-1, true⟩]

/-- The result events of a message stream, in order. -/
def responsesOf (msgs : List QueueMsg) : List (Int × Bool) :=
  msgs.filterMap (fun m => match m with
    | .res d => some (d.index, d.result)
    | .log _ => none)

/-! ## Object identity of `BuildSettings`

`NodeEditorWindow.onAddNodeDialog` (node_editor_window.py, lines 505-532)
unpacks `NodeCreationDialog.getNodeData()`, whose fifth component is the
LIST of checked attribute names (`creation_dialog.py`, lines 154-171,
annotated `list[str]`), and then evaluates `flags.get("project")` /
`flags.get("options")` / `flags.get("build")`.  Python lists have no `get`
method, so the first of these raises `AttributeError` whenever a base node
was selected (`inherit_idx >= 0`).  Had the lookups succeeded, the handler
binds `bs = base_node.buildSettings()` — the base node's own
`BuildSettings` OBJECT, with no copy — and `NodeScene.addNewNode` stores
that object unchanged via `setBuildSettings` (node_scene.py, line 394),
while `opts = list(base_node.cmakeOptions())` does take a copy.
`BatchEditDialog.applyToNodes` (batch_edit_dialog.py, lines 272-302)
mutates `bs = node.buildSettings()` field-by-field IN PLACE, so a shared
object is observable.  This section gives the two-node scene a heap so the
sharing is expressible. -/

/-- A node as held by the heap model: the `BuildSettings` is a reference
into the scene's store of `BuildSettings` objects. -/
structure HeapNode where
  node_id : Nat
  title : String
  bsRef : Nat
deriving DecidableEq, Repr

/-- A scene whose `BuildSettings` objects live in an explicit store, so that
Python object identity (sharing) is expressible. -/
structure HeapScene where
  nodes : List HeapNode
  store : List BuildSettings
  counter : Nat
deriving DecidableEq, Repr

/-- The `AttributeError` raised by `flags.get(...)`. -/
inductive PyError where
  | attributeError (msg : String)
deriving DecidableEq, Repr

/-- `flags.get(key)` where `flags` is the `list[str]` returned by
`NodeCreationDialog.getNodeData`: Python lists have no `get` method. -/
def pyListGet (_flags : List String) (_key : String) : Except PyError Bool :=
  .error (.attributeError "'list' object has no attribute 'get'")

/-- `NodeScene.addNewNode` in the heap model, receiving the `BuildSettings`
as the object reference the caller passes (`setBuildSettings` stores it
verbatim, node_scene.py line 394); `none` means the Python `None` argument,
for which a fresh default object is allocated. -/
def HeapScene.addNewNode (sc : HeapScene) (title : String) (bs : Option Nat) :
    HeapScene :=
  match bs with
  | some r =>
      { sc with nodes := sc.nodes ++ [⟨sc.counter, title, r⟩],
                counter := sc.counter + 1 }
  | none =>
      { sc with nodes := sc.nodes ++ [⟨sc.counter, title, sc.store.length⟩],
                store := sc.store ++ [defaultBuildSettings "CWD"],
                counter := sc.counter + 1 }

/-- `NodeEditorWindow.onAddNodeDialog` in the heap model.  With a base node
selected (`0 ≤ inheritIdx < len(nodes)`), the handler first evaluates
`flags.get("project")`, which raises; the dead continuation is written out
so the intended dataflow — the base node's `bsRef` passed through without a
copy when the `build` flag is set — stays visible. -/
def heapAddNodeDialog (sc : HeapScene) (name : String) (inheritIdx : Int)
    (flags : List String) : Except PyError HeapScene :=
  if h : 0 ≤ inheritIdx ∧ inheritIdx.toNat < sc.nodes.length then
    match pyListGet flags "project" with
    | .error e => .error e
    | .ok _ =>
        match pyListGet flags "build" with
        | .error e => .error e
        | .ok useBuild =>
            let base := sc.nodes.get ⟨inheritIdx.toNat, h.2⟩
            .ok (sc.addNewNode name (if useBuild then some base.bsRef else none))
  else
    .ok (sc.addNewNode name none)

/-- One field update of `BatchEditDialog.applyToNodes` (batch_edit_dialog.py,
lines 277-280): `bs = node.buildSettings(); bs.build_dir = ...` mutates the
node's `BuildSettings` object in place. -/
def batchSetBuildDir (sc : HeapScene) (i : Nat) (v : String) : HeapScene :=
  match sc.nodes.find? (fun n => n.node_id == i) with
  | none => sc
  | some n =>
      let bs := sc.store.getD n.bsRef (defaultBuildSettings "CWD")
      { sc with store := sc.store.set n.bsRef { bs with build_dir := v } }

/-- The `build_dir` a node observes through its reference. -/
def observedBuildDir (sc : HeapScene) (i : Nat) : Option String :=
  (sc.nodes.find? (fun n => n.node_id == i)).map
    (fun n => (sc.store.getD n.bsRef (defaultBuildSettings "CWD")).build_dir)

/-! ## Concrete instances used by witnesses and counterexamples -/

/-- A node record with the given id, title and project path, default build
settings, no options and no scripts. -/
def mkNode (i : Nat) (t p : String) : NodeData :=
  { node_id := i, title := t, cmake_options := [], project_path := p,
    build_settings := defaultBuildSettings "CWD",
    code_before_build := "", code_after_install := "" }

/-- A filesystem where directory `p` exists and contains `CMakeLists.txt`. -/
def demoFS : FileSystem := { dirs := ["p"], files := ["p/CMakeLists.txt"] }

/-- A filesystem where directory `p` exists but is empty. -/
def emptyDirFS : FileSystem := { dirs := ["p"], files := [] }

/-- A one-node scene with a valid project path. -/
def oneNodeScene : Scene := { nodes := [mkNode 1 "A" "p"], edges := [], counter := 2 }

/-- Nodes A, B, C with edges A→B and B→C (spec §8 end-to-end scenario). -/
def chainScene : Scene :=
  { nodes := [mkNode 1 "A" "p", mkNode 2 "B" "p", mkNode 3 "C" "p"],
    edges := [(1, 2), (2, 3)], counter := 4 }

/-- The same three nodes with the extra edge C→A closing a cycle. -/
def cycleScene : Scene := { chainScene with edges := [(1, 2), (2, 3), (3, 1)] }

/-- A scene holding the single edge (1, 2). -/
def oneEdgeScene : Scene :=
  { nodes := [mkNode 1 "A" "p", mkNode 2 "B" "p"], edges := [(1, 2)], counter := 3 }

/-- The same two nodes with no edge yet. -/
def noEdgeScene : Scene := { oneEdgeScene with edges := [] }

/-- Reached from the empty scene by creating a node explicitly titled
`Node_2` (accepted: no collision at that moment). -/
def sceneNamedNode2 : Scene :=
  (onAddNodeDialog "CWD" emptyScene "Node_2" [] "p").getD emptyScene

/-- ... then creating a node titled `B` (gets id 2). -/
def sceneNamedNode2B : Scene :=
  (onAddNodeDialog "CWD" sceneNamedNode2 "B" [] "p").getD emptyScene

/-- Reached from the empty scene by creating nodes A, B, C (ids 1, 2, 3)
and then deleting node 3, so the maximum live id is 2. -/
def sceneAfterRemove : Scene :=
  ((((emptyScene.addNewNode "A" [] "p" (defaultBuildSettings "CWD")).addNewNode
        "B" [] "p" (defaultBuildSettings "CWD")).addNewNode
        "C" [] "p" (defaultBuildSettings "CWD")).removeNode 3)

/-- A node exercising every non-empty optional configure flag. -/
def fullNode : NodeData :=
  { node_id := 1, title := "Proj", cmake_options := ["-DFOO=1", "-DBAR=2"],
    project_path := "src",
    build_settings :=
      { build_dir := "bld", install_dir := "inst", build_type := "Debug",
        prefix_path := "pp", toolchain_file := "tc", generator := "Ninja",
        c_compiler := "gcc", cxx_compiler := "g++" },
    code_before_build := "", code_after_install := "" }

/-- Collaborators for which every child process exits 0 and every script
runs cleanly. -/
def okCollab : Collaborators :=
  { runProcess := fun _ => .ok ⟨0, "", ""⟩, runScript := fun _ => .ok "" }

/-- Collaborators for which every child process exits 1. -/
def failCollab : Collaborators :=
  { runProcess := fun _ => .ok ⟨1, "", "err"⟩, runScript := fun _ => .ok "" }

/-- Collaborators for which both external calls raise. -/
def raiseCollab : Collaborators :=
  { runProcess := fun _ => .error ⟨"boom", "Traceback ..."⟩,
    runScript := fun _ => .error ⟨"boom", "Traceback ..."⟩ }

/-- A two-group, then one-group plan over trivial `cmd` steps. -/
def demoPlan : ProjectCommands :=
  { start_node_id := -1,
    node_commands_list :=
      [⟨1, mkNode 1 "A" "p", [⟨"cmd", .inr ["true"], "Step A"⟩]⟩,
       ⟨2, mkNode 2 "B" "p", [⟨"cmd", .inr ["true"], "Step B"⟩]⟩] }

/-- A heap scene with one node `A` (id 1) owning store cell 0. -/
def heapSceneA : HeapScene :=
  { nodes := [⟨1, "A", 0⟩], store := [defaultBuildSettings "CWD"], counter := 2 }

/-! ## Notions for the topological-sort claims -/

/-- One directed step along the edge list. -/
def EdgeStep (edges : List (Nat × Nat)) (s t : Nat) : Prop := (s, t) ∈ edges

/-- The edge set contains a directed cycle: a non-empty chain of edges
leaving `a` whose last vertex is `a` again. -/
def CycleIn (edges : List (Nat × Nat)) : Prop :=
  ∃ a l, l.getLast? = some a ∧ List.Chain (EdgeStep edges) a l

/-- Well-formedness of a scene as the graph API maintains it: pairwise
distinct node ids (`addNewNode` allocates fresh counter values, loading
re-keys `node_map` by id), no duplicate edge pairs (`addEdge` rejects the
exact ordered pair), and edge endpoints belong to scene nodes (`addEdge`
receives pins of scene nodes only, `removeNode` cascades, the load path
checks both ids). -/
def SceneWF (sc : Scene) : Prop :=
  sc.ids.Nodup ∧ sc.edges.Nodup ∧ ∀ e ∈ sc.edges, e.1 ∈ sc.ids ∧ e.2 ∈ sc.ids

/-- The number of edges into `c` whose source has not been emitted yet — the
quantity `in_degree[c]` holds at every point of the sort loop. -/
def inCount (edges : List (Nat × Nat)) (emitted : List Nat) (c : Nat) : Nat :=
  (edges.filter (fun e => e.2 == c && !(emitted.contains e.1))).length

/-! ## Claim C6 — `addEdge` rejections -/

/-- C6: for every graph state and nodes a, b: `addEdge(a,a)` leaves the
graph unchanged; `addEdge(a,b)` when the exact ordered pair already exists
leaves the graph unchanged — in fact an immediate second `addEdge(x,y)` is
always a complete no-op, so the edge count changes at most once; otherwise
`addEdge(a,b)` appends exactly the edge (a,b).  Rejection is silent: the
returned scene IS the input scene, no error is signalled. -/
theorem addEdge_spec (sc : Scene) (a b : Nat) :
    sc.addEdge a a = sc ∧
    ((a, b) ∈ sc.edges → sc.addEdge a b = sc) ∧
    (sc.addEdge a b).addEdge a b = sc.addEdge a b ∧
    (a ≠ b → (a, b) ∉ sc.edges → (sc.addEdge a b).edges = sc.edges ++ [(a, b)]) := by
  refine ⟨?_, ?_, ?_, ?_⟩
  · simp [Scene.addEdge]
  · intro hmem
    simp [Scene.addEdge, List.elem_iff, hmem]
  · by_cases hab : a = b
    · simp [Scene.addEdge, hab]
    · by_cases hmem : (a, b) ∈ sc.edges
      · simp [Scene.addEdge, hab, List.elem_iff, hmem]
      · simp [Scene.addEdge, hab, List.elem_iff, hmem]
  · intro hab hmem
    simp [Scene.addEdge, hab, List.elem_iff, hmem]

/-- Witness for C6 at concrete scenes: a present pair is silently ignored
and a fresh pair is appended. -/
theorem addEdge_spec_witness :
    oneEdgeScene.addEdge 1 1 = oneEdgeScene ∧
    oneEdgeScene.addEdge 1 2 = oneEdgeScene ∧
    (noEdgeScene.addEdge 1 2).edges = [(1, 2)] := by
  refine ⟨(addEdge_spec oneEdgeScene 1 1).1,
          (addEdge_spec oneEdgeScene 1 2).2.1 (by decide),
          ?_⟩
  have h := (addEdge_spec noEdgeScene 1 2).2.2.2 (by decide) (by decide)
  simpa [noEdgeScene, oneEdgeScene] using h

/-! ## Claim C3 — the emitted cmake command lines -/

/-- Modelled from the spec's words (claim C3 / spec §6), for comparison with
the code: configure claimed as byte-for-byte
`cmake -S <project_path> -B <build_dir>/<title>/<build_type>
-DCMAKE_BUILD_TYPE=<type> -DCMAKE_INSTALL_PREFIX=<install_dir>/<build_type>`
with the generator, C compiler, C++ compiler, toolchain-file and prefix-path
flags included only when non-empty and every `cmake_options` entry appended
verbatim and in order. -/
def claimConfigure (nd : NodeData) : List String :=
  let bs := nd.build_settings
  ["cmake", "-S", nd.project_path, "-B", nodeBuildDir nd,
   "-DCMAKE_BUILD_TYPE=" ++ bs.build_type,
   "-DCMAKE_INSTALL_PREFIX=" ++ nodeInstallDir nd]
  ++ (if bs.generator == "" then [] else ["-G", bs.generator])
  ++ (if bs.c_compiler == "" then []
      else ["-DCMAKE_C_COMPILER:FILEPATH=" ++ bs.c_compiler])
  ++ (if bs.cxx_compiler == "" then []
      else ["-DCMAKE_CXX_COMPILER:FILEPATH=" ++ bs.cxx_compiler])
  ++ (if bs.toolchain_file == "" then []
      else ["-DCMAKE_TOOLCHAIN_FILE=" ++ bs.toolchain_file])
  ++ (if bs.prefix_path == "" then []
      else ["-DCMAKE_PREFIX_PATH=" ++ bs.prefix_path])
  ++ nd.cmake_options

/-- C3 counterexample: already on a plain node the code does not emit the
claimed `-DCMAKE_BUILD_TYPE=<type>` but `-DCMAKE_BUILD_TYPE:STRING=<type>`
(node_editor_window.py, line 734), so the configure line is not the claimed
bytes; the claimed build-type flag never occurs in the emitted vector. -/
theorem cmdConfigure_ne_claim :
    cmdConfigure (mkNode 1 "A" "p") ≠ claimConfigure (mkNode 1 "A" "p") ∧
    ("-DCMAKE_BUILD_TYPE:STRING=Debug" ∈ cmdConfigure (mkNode 1 "A" "p")) ∧
    ("-DCMAKE_BUILD_TYPE=Debug" ∉ cmdConfigure (mkNode 1 "A" "p")) := by
  decide

/-- C3 amended: the emitted commands are byte-for-byte
`cmake [-G <generator>] -S <project_path> -B <build_dir>/<title>/<build_type>
-DCMAKE_BUILD_TYPE:STRING=<type>
-DCMAKE_INSTALL_PREFIX=<install_dir>/<build_type>
[-DCMAKE_C_COMPILER:FILEPATH=<cc>] [-DCMAKE_CXX_COMPILER:FILEPATH=<cxx>]
[-DCMAKE_TOOLCHAIN_FILE=<tc>] [-DCMAKE_PREFIX_PATH=<pp>] <options...>`
(each bracketed flag present exactly when its setting is non-empty, the
generator spliced in directly after the program name, options verbatim and
in order), build is `cmake --build <out> --config <type> --parallel <n>`,
and install is `cmake --install <out> --config <type>`. -/
theorem cmdConfigure_shape (cpu : Nat) (nd : NodeData) :
    cmdConfigure nd =
      ["cmake"]
      ++ (if nd.build_settings.generator == "" then []
          else ["-G", nd.build_settings.generator])
      ++ ["-S", nd.project_path, "-B", nodeBuildDir nd,
          "-DCMAKE_BUILD_TYPE:STRING=" ++ nd.build_settings.build_type,
          "-DCMAKE_INSTALL_PREFIX=" ++ nodeInstallDir nd]
      ++ (if nd.build_settings.c_compiler == "" then []
          else ["-DCMAKE_C_COMPILER:FILEPATH=" ++ nd.build_settings.c_compiler])
      ++ (if nd.build_settings.cxx_compiler == "" then []
          else ["-DCMAKE_CXX_COMPILER:FILEPATH=" ++ nd.build_settings.cxx_compiler])
      ++ (if nd.build_settings.toolchain_file == "" then []
          else ["-DCMAKE_TOOLCHAIN_FILE=" ++ nd.build_settings.toolchain_file])
      ++ (if nd.build_settings.prefix_path == "" then []
          else ["-DCMAKE_PREFIX_PATH=" ++ nd.build_settings.prefix_path])
      ++ nd.cmake_options ∧
    cmdBuild cpu nd =
      ["cmake", "--build", nodeBuildDir nd,
       "--config", nd.build_settings.build_type, "--parallel", toString cpu] ∧
    cmdInstall nd =
      ["cmake", "--install", nodeBuildDir nd,
       "--config", nd.build_settings.build_type] := by
  refine ⟨?_, rfl, rfl⟩
  by_cases hg : nd.build_settings.generator == ""
  · simp [cmdConfigure, hg]
  · simp [cmdConfigure, hg]

/-! ## Claim C9 — node id allocation -/

/-- Helper: `Scene.addEdge` never touches the counter. -/
theorem addEdge_counter (sc : Scene) (s t : Nat) :
    (sc.addEdge s t).counter = sc.counter := by
  unfold Scene.addEdge
  split
  · rfl
  · split <;> rfl

/-- Helper: the edge-reconstruction fold of `loadProject` never touches the
counter. -/
theorem loadProject_fold_counter (eds : List (Nat × Nat)) (sc : Scene) :
    (eds.foldl
      (fun sc e =>
        if (sc.nodes.any (fun n => n.node_id == e.1))
            && (sc.nodes.any (fun n => n.node_id == e.2)) then
          sc.addEdge e.1 e.2
        else sc)
      sc).counter = sc.counter := by
  induction eds generalizing sc with
  | nil => rfl
  | cons e rest ih =>
      simp only [List.foldl_cons]
      rw [ih]
      split
      · exact addEdge_counter ..
      · rfl

/-- Helper: shifting the base of the `max (· + 1)` fold of `loadCounter`. -/
theorem foldl_max_succ (l : List Nat) :
    ∀ a : Nat, l.foldl (fun x i => max x (i + 1)) (a + 1)
      = l.foldl (fun x i => max x i) a + 1 := by
  induction l with
  | nil => intro a; rfl
  | cons i rest ih =>
      intro a
      simp only [List.foldl_cons]
      have h : (a + 1) ⊔ (i + 1) = (a ⊔ i) + 1 := by omega
      rw [h, ih]

/-- C9 counterexample: create nodes A, B, C (ids 1, 2, 3) from a fresh
scene, delete node 3.  The maximum live id is now 2, so the claim predicts
the next id 3; `addNewNode` hands out `nodeCounter = 4` instead (the class
counter never decreases, node_scene.py lines 377-378). -/
theorem addNewNode_not_max_plus_one :
    sceneAfterRemove.ids = [1, 2] ∧
    (sceneAfterRemove.addNewNode "D" [] "p"
        (defaultBuildSettings "CWD")).ids = [1, 2, 4] ∧
    sceneAfterRemove.ids.foldl max 0 + 1 = 3 := by
  decide

/-- C9 amended: `addNewNode` assigns the monotonic class counter
`nodeCounter` (one more than the highest id handed out since the last load
or application start — equal to current-max-plus-one only while no
maximal-id node has been removed) and bumps it; loading a project resets the
counter to `max(ids in file) + 1` (minimum 1 for an empty file), so the next
assigned id is the file's maximum plus one. -/
theorem idAllocation_spec (sc : Scene) (t : String) (os : List String)
    (p : String) (bs : BuildSettings) (nds : List NodeData)
    (eds : List (Nat × Nat)) :
    (sc.addNewNode t os p bs).ids = sc.ids ++ [sc.counter] ∧
    (sc.addNewNode t os p bs).counter = sc.counter + 1 ∧
    (loadProject nds eds).counter = (nds.map (·.node_id)).foldl max 0 + 1 := by
  refine ⟨?_, rfl, ?_⟩
  · simp [Scene.addNewNode, Scene.ids]
  · simp only [loadProject]
    rw [loadProject_fold_counter]
    show loadCounter nds = _
    unfold loadCounter
    rw [← List.foldl_map (fun nd : NodeData => nd.node_id)
          (fun a i => max a (i + 1))]
    exact foldl_max_succ _ 0

/-! ## Claim C5 — unknown start node id -/

/-- C5 counterexample: the scene has one node (id 1, valid path); the start
field holds 99, which no node carries.  The claim demands a `NodeNotFound`
failure with no plan; the code only warns `building from beginning`
(node_editor_window.py line 681) and compiles the full sequence — the call
succeeds and yields a one-group plan whose recorded start id is -1. -/
theorem onBuildAll_missing_start_builds :
    (onBuildAll demoFS 4 oneNodeScene (some 99)).isOk = true ∧
    (onBuildAll demoFS 4 oneNodeScene (some 99)).toOption.map
        (fun p => (p.start_node_id, p.node_commands_list.length)) = some (-1, 1) := by
  decide

/-- C5 amended: a `startNodeId` not present among the ordered nodes does not
fail; `onBuildAll` behaves exactly as if no start id had been given (warns,
keeps start index 0, records start id -1, compiles every node). -/
theorem onBuildAll_unknown_start (fs : FileSystem) (cpu : Nat) (sc : Scene)
    (sid : Int)
    (h : ∀ order, sc.sortedNodes = some order →
          ∀ nd ∈ order, ((nd.node_id : Int) == sid) = false) :
    onBuildAll fs cpu sc (some sid) = onBuildAll fs cpu sc none := by
  unfold onBuildAll
  cases hs : sc.sortedNodes with
  | none => rfl
  | some order =>
      have hidx : resolveStartIndex order (some sid) = resolveStartIndex order none := by
        simp [resolveStartIndex, List.findIdx?_eq_none_iff.mpr (h order hs)]
      have hany : order.any (fun n => ((n.node_id : Int) == sid)) = false := by
        rw [List.any_eq_false]
        intro nd hnd
        simp only [h order hs nd hnd]
        exact Bool.false_ne_true
      have hid : resolveStartId order (some sid) = resolveStartId order none := by
        simp [resolveStartId, hany]
      simp only [hidx, hid]

/-- Witness for C5 amended at the concrete scene. -/
theorem onBuildAll_unknown_start_witness :
    onBuildAll demoFS 4 oneNodeScene (some 99) = onBuildAll demoFS 4 oneNodeScene none := by
  refine onBuildAll_unknown_start demoFS 4 oneNodeScene 99 ?_
  intro order hs nd hnd
  have hconc : oneNodeScene.sortedNodes = some [mkNode 1 "A" "p"] := by decide
  rw [hconc] at hs
  cases hs
  rcases List.mem_singleton.mp hnd with rfl
  decide

/-! ## Claim C4 — invalid project path aborts the whole compile -/

/-- Helper: the compile loop errors out with `InvalidProjectPath` as soon as
the node sequence contains any node failing validation. -/
theorem compileNodes_error_of_invalid (fs : FileSystem) (cpu : Nat) :
    ∀ l : List NodeData, l.any (fun nd => !(validProject fs nd)) = true →
      ∃ t, compileNodes fs cpu l = .error (.invalidProjectPath t) := by
  intro l
  induction l with
  | nil => intro h; cases h
  | cons nd rest ih =>
      intro h
      by_cases hv : validProject fs nd
      · have hrest : rest.any (fun nd => !(validProject fs nd)) = true := by
          simpa [hv] using h
        obtain ⟨t, ht⟩ := ih hrest
        refine ⟨t, ?_⟩
        simp [compileNodes, hv, ht]
      · refine ⟨nd.title, ?_⟩
        simp [compileNodes, hv]

/-- C4: whenever the topologically ordered (and possibly sliced) node
sequence contains a node whose `project_path` is empty, is not an existing
directory, or lacks `CMakeLists.txt` at its root, `onBuildAll` returns the
`InvalidProjectPath` early exit: no plan value exists, so nothing can be
handed to a worker and no command is queued (the worker process and the
`task_queue.put` call only exist on the `.ok` path,
node_editor_window.py lines 786-806). -/
theorem onBuildAll_invalid_path (fs : FileSystem) (cpu : Nat) (sc : Scene)
    (sid : Option Int) (order : List NodeData)
    (hs : sc.sortedNodes = some order)
    (hbad : (order.drop (resolveStartIndex order sid)).any
        (fun nd => !(validProject fs nd)) = true) :
    ∃ t, onBuildAll fs cpu sc sid = .error (.invalidProjectPath t) := by
  obtain ⟨t, ht⟩ := compileNodes_error_of_invalid fs cpu
    (order.drop (resolveStartIndex order sid)) hbad
  refine ⟨t, ?_⟩
  unfold onBuildAll
  rw [hs]
  simp only [ht]

/-- Witness for C4: node A's directory exists but holds no `CMakeLists.txt`
(the spec §8 end-to-end scenario), and the compile errors out. -/
theorem onBuildAll_invalid_path_witness :
    ∃ t, onBuildAll emptyDirFS 4 oneNodeScene none
      = .error (.invalidProjectPath t) := by
  exact onBuildAll_invalid_path emptyDirFS 4 oneNodeScene none
    [mkNode 1 "A" "p"] (by decide) (by decide)

/-! ## Claim C8 — `CommandExecutor.execute` -/

/-- C8: `execute` returns a pass/fail verdict for every step and never
raises past its boundary (its type is total: the `try/except` converts any
exception of the body into a failure verdict after a log event carrying the
exception's message and formatted traceback); a step of unknown kind yields
a failure verdict whose single log event names the unrecognized kind; and
when the child process of a `"cmd"` step runs, the verdict is success if
and only if its exit code is zero. -/
theorem execute_spec (cb : Collaborators) (cd : CommandData) :
    (∀ e logs, executeBody cb cd = (.error e, logs) →
        execute cb cd = (false, logs ++ [excLog cd e]) ∧
        (excLog cd e).log
          = "[Worker] Exception while executing command: " ++ cd.display_name
            ++ "\n" ++ e.msg ++ "\n" ++ e.traceback) ∧
    (cd.type ≠ "script" → cd.type ≠ "cmd" →
        execute cb cd
          = (false, [⟨-1, "[Worker] Unknown command type: " ++ cd.type⟩])) ∧
    (∀ r, cd.type = "cmd" → cb.runProcess cd.cmd = .ok r →
        ((execute cb cd).1 = true ↔ r.returncode = 0)) := by
  refine ⟨?_, ?_, ?_⟩
  · intro e logs hbody
    refine ⟨?_, rfl⟩
    unfold execute
    rw [hbody]
  · intro h1 h2
    have b1 : (cd.type == "script") = false := by
      simpa using h1
    have b2 : (cd.type == "cmd") = false := by
      simpa using h2
    unfold execute executeBody
    rw [b1, b2]
    rfl
  · intro r hty hrun
    have b1 : (cd.type == "script") = false := by
      simp [hty]
    have b2 : (cd.type == "cmd") = true := by
      simp [hty]
    unfold execute executeBody
    rw [b1, b2]
    simp only [Bool.false_eq_true, if_false, if_true, hrun]
    by_cases hrc : r.returncode = 0
    · simp [hrc]
    · simp [hrc]

/-- Witness for C8: a raising script converts to a failure verdict with the
exception log appended; an unknown kind fails naming the kind; an exit-0
command succeeds while an exit-1 command fails. -/
theorem execute_spec_witness :
    execute raiseCollab ⟨"script", .inl "x", "S"⟩
      = (false, [⟨-1, "[Worker] Executing script: S"⟩,
                 excLog ⟨"script", .inl "x", "S"⟩ ⟨"boom", "Traceback ..."⟩]) ∧
    execute okCollab ⟨"weird", .inl "", "W"⟩
      = (false, [⟨-1, "[Worker] Unknown command type: weird"⟩]) ∧
    (execute okCollab ⟨"cmd", .inr ["true"], "C"⟩).1 = true ∧
    (execute failCollab ⟨"cmd", .inr ["false"], "C"⟩).1 = false := by
  refine ⟨?_, ?_, ?_, ?_⟩
  · exact ((execute_spec raiseCollab ⟨"script", .inl "x", "S"⟩).1
      ⟨"boom", "Traceback ..."⟩ [⟨-1, "[Worker] Executing script: S"⟩] rfl).1
  · exact (execute_spec okCollab ⟨"weird", .inl "", "W"⟩).2.1
      (by decide) (by decide)
  · exact ((execute_spec okCollab ⟨"cmd", .inr ["true"], "C"⟩).2.2
      ⟨0, "", ""⟩ rfl rfl).mpr rfl
  · have h := (execute_spec failCollab ⟨"cmd", .inr ["false"], "C"⟩).2.2
      ⟨1, "", "err"⟩ rfl rfl
    have hne : ¬((execute failCollab ⟨"cmd", .inr ["false"], "C"⟩).1 = true) :=
      fun ht => absurd (h.mp ht) (by decide)
    simpa using hne

/-! ## Claim C2 — worker execution order and result events -/

/-- Helper: `responsesOf` distributes over concatenation. -/
theorem responsesOf_append (a b : List QueueMsg) :
    responsesOf (a ++ b) = responsesOf a ++ responsesOf b := by
  simp [responsesOf, List.filterMap_append]

/-- Helper: log events contribute no result events. -/
theorem responsesOf_logs (logs : List SubprocessLogData) :
    responsesOf (logs.map .log) = [] := by
  induction logs with
  | nil => rfl
  | cons l rest _ => simp [responsesOf]

/-- Helper: a group's step execution emits log events only. -/
theorem runGroupSteps_responses (cb : Collaborators) (l : List CommandData) :
    responsesOf (runGroupSteps cb l).2 = [] := by
  induction l with
  | nil => rfl
  | cons cd rest ih =>
      unfold runGroupSteps
      by_cases h : (execute cb cd).1
      · simp [h, responsesOf_append, responsesOf_logs, ih]
      · simp [h, responsesOf_logs]

/-- Helper: peeling the first plan position off an indexed result-event
range. -/
theorem range_map_shift (k : Int) (n : Nat) :
    (List.range (n + 1)).map (fun (i : Nat) => (k + (i : Int), true))
      = (k, true) :: (List.range n).map (fun (i : Nat) => (k + 1 + (i : Int), true)) := by
  rw [List.range_succ_eq_map]
  simp only [List.map_cons, List.map_map, Nat.cast_zero, add_zero]
  refine congrArg _ ?_
  refine List.map_congr_left (fun i _ => ?_)
  simp only [Function.comp_apply, Prod.mk.injEq]
  exact ⟨by push_cast; ring, trivial⟩

/-- Helper: when every group passes, the group loop emits `(k + i, true)`
for each plan position in order and leaves `build_failed` false. -/
theorem runGroupsFrom_ok (cb : Collaborators) :
    ∀ (gs : List NodeCommands) (k : Int),
      (∀ g ∈ gs, (runGroupSteps cb g.cmd_list).1 = true) →
      responsesOf (runGroupsFrom cb k gs).1
          = (List.range gs.length).map (fun (i : Nat) => (k + (i : Int), true)) ∧
      (runGroupsFrom cb k gs).2 = false := by
  intro gs
  induction gs with
  | nil => intro k _; exact ⟨rfl, rfl⟩
  | cons g rest ih =>
      intro k h
      have hg : (runGroupSteps cb g.cmd_list).1 = true := h g (by simp)
      have hrest := ih (k + 1) (fun g0 hg0 => h g0 (by simp [hg0]))
      refine ⟨?_, ?_⟩
      · simp only [runGroupsFrom, hg, if_true, List.length_cons, range_map_shift]
        rw [responsesOf_append, responsesOf_append, runGroupSteps_responses,
          hrest.1]
        simp [responsesOf]
      · simp only [runGroupsFrom, hg, if_true]
        exact hrest.2

/-- Helper: with every group before it passing, the first failing group at
plan position `k + |pre|` emits `(position, false)` right after the passing
groups' events, skips every remaining group, and raises `build_failed`. -/
theorem runGroupsFrom_fail (cb : Collaborators) :
    ∀ (pre : List NodeCommands) (g : NodeCommands) (post : List NodeCommands)
      (k : Int),
      (∀ g0 ∈ pre, (runGroupSteps cb g0.cmd_list).1 = true) →
      (runGroupSteps cb g.cmd_list).1 = false →
      responsesOf (runGroupsFrom cb k (pre ++ g :: post)).1
          = (List.range pre.length).map (fun (i : Nat) => (k + (i : Int), true))
            ++ [(k + (pre.length : Int), false)] ∧
      (runGroupsFrom cb k (pre ++ g :: post)).2 = true := by
  intro pre
  induction pre with
  | nil =>
      intro g post k _ hg
      refine ⟨?_, ?_⟩
      · show responsesOf (runGroupsFrom cb k (g :: post)).1 = _
        simp only [runGroupsFrom, hg, Bool.false_eq_true, if_false]
        rw [responsesOf_append, runGroupSteps_responses]
        simp [responsesOf]
      · show (runGroupsFrom cb k (g :: post)).2 = true
        simp only [runGroupsFrom, hg, Bool.false_eq_true, if_false]
  | cons g0 rest ih =>
      intro g post k hpre hg
      have hg0 : (runGroupSteps cb g0.cmd_list).1 = true := hpre g0 (by simp)
      have hrest := ih g post (k + 1) (fun x hx => hpre x (by simp [hx])) hg
      have harith : k + 1 + (rest.length : Int)
          = k + ((rest.length + 1 : Nat) : Int) := by
        push_cast
        ring
      refine ⟨?_, ?_⟩
      · show responsesOf (runGroupsFrom cb k (g0 :: (rest ++ g :: post))).1 = _
        simp only [runGroupsFrom, hg0, if_true, List.length_cons, range_map_shift]
        rw [responsesOf_append, responsesOf_append, runGroupSteps_responses,
          hrest.1, harith]
        simp [responsesOf]
      · show (runGroupsFrom cb k (g0 :: (rest ++ g :: post))).2 = true
        simp only [runGroupsFrom, hg0, if_true]
        exact hrest.2

/-- C2: the worker walks the plan's node groups in plan order, running each
group's steps strictly sequentially.  If every step of every group passes,
the result-event stream is `(0, true), (1, true), …` — one event per group
in plan order — followed by the whole-plan sentinel `(-1, true)`.  If some
group fails (its sequential step run returns false at its first failing
step), the events are `(i, true)` for every group before it, then
`(position, false)` for the failing group, then the sentinel `(-1, false)`;
the failing group's remaining steps (inside `runGroupSteps`) and all
remaining groups contribute nothing. -/
theorem worker_plan_events (cb : Collaborators) (task : ProjectCommands) :
    ((∀ g ∈ task.node_commands_list, (runGroupSteps cb g.cmd_list).1 = true) →
        responsesOf (runProjectCommands cb task)
          = (List.range task.node_commands_list.length).map
              (fun (i : Nat) => ((i : Int), true)) ++ [(-1, true)]) ∧
    (∀ pre g post, task.node_commands_list = pre ++ g :: post →
        (∀ g0 ∈ pre, (runGroupSteps cb g0.cmd_list).1 = true) →
        (runGroupSteps cb g.cmd_list).1 = false →
        responsesOf (runProjectCommands cb task)
          = (List.range pre.length).map (fun (i : Nat) => ((i : Int), true))
            ++ [((pre.length : Int), false), (-1, false)]) := by
  constructor
  · intro h
    have hr := runGroupsFrom_ok cb task.node_commands_list 0 h
    simp only [runProjectCommands, hr.2, Bool.false_eq_true, if_false]
    rw [responsesOf_append, responsesOf_append, hr.1]
    simp [responsesOf]
  · intro pre g post hsplit hpre hg
    have hr := runGroupsFrom_fail cb pre g post 0 hpre hg
    simp only [runProjectCommands, hsplit, hr.2, if_true]
    rw [responsesOf_append, responsesOf_append, hr.1]
    simp [responsesOf]

/-- Witness for C2: on the two-group demo plan with an all-passing executor
the events are `(0, true), (1, true), (-1, true)`. -/
theorem worker_plan_events_witness :
    responsesOf (runProjectCommands okCollab demoPlan)
      = (List.range demoPlan.node_commands_list.length).map
          (fun (i : Nat) => ((i : Int), true)) ++ [(-1, true)] :=
  (worker_plan_events okCollab demoPlan).1 (by decide)

/-! ## Claim C7 — title uniqueness -/

/-- C7 counterexample: from a fresh scene, create a node explicitly titled
`Node_2` (accepted, id 1), then a node titled `B` (accepted, id 2) — titles
distinct.  Renaming node 2 with an EMPTY input defaults the title to
`Node_2` (node_editor_window.py lines 606-608) and, the duplicate check
living in the `elif` branch only, applies it: two nodes now share the title
`Node_2`, so titles are not pairwise distinct after every rename. -/
theorem rename_breaks_title_uniqueness :
    (onAddNodeDialog "CWD" emptyScene "Node_2" [] "p").isSome = true ∧
    (onAddNodeDialog "CWD" sceneNamedNode2 "B" [] "p").isSome = true ∧
    sceneNamedNode2B.nodes.map (·.title) = ["Node_2", "B"] ∧
    (onApplyNodeProperties sceneNamedNode2B 2 "").nodes.map (·.title)
        = ["Node_2", "Node_2"] := by
  decide

/-- C7 amended: creating a node whose (defaulted) title collides with an
existing node's title is rejected with the duplicate-title warning and adds
no node, and any accepted creation preserves pairwise-distinct titles; a
rename to a NON-empty title likewise preserves distinctness (collisions are
rejected) — but a rename submitted with an empty title is defaulted to
`Node_<id>` without the duplicate check bypassing the guarantee
(see the counterexample). -/
theorem title_uniqueness_amended (cwd : String) (sc : Scene) (rawName : String)
    (opts : List String) (path : String) (i : Nat) (rawTitle : String)
    (hid : (sc.nodes.map (·.node_id)).Nodup)
    (ht : (sc.nodes.map (·.title)).Nodup) :
    ((sc.nodes.any (fun n =>
        n.title == (if rawName = "" then "Node_" ++ toString sc.counter
                    else rawName))) = true →
      onAddNodeDialog cwd sc rawName opts path = none) ∧
    (∀ sc2, onAddNodeDialog cwd sc rawName opts path = some sc2 →
      (sc2.nodes.map (·.title)).Nodup) ∧
    (rawTitle ≠ "" →
      ((onApplyNodeProperties sc i rawTitle).nodes.map (·.title)).Nodup) := by
  refine ⟨?_, ?_, ?_⟩
  · intro hany
    simp [onAddNodeDialog, hany]
  · intro sc2 hsc2
    unfold onAddNodeDialog at hsc2
    by_cases hany : sc.nodes.any (fun n =>
        n.title == (if rawName = "" then "Node_" ++ toString sc.counter
                    else rawName)) = true
    · simp [hany] at hsc2
    · rw [if_neg hany] at hsc2
      cases hsc2
      have hnotmem : (if rawName = "" then "Node_" ++ toString sc.counter
          else rawName) ∉ sc.nodes.map (·.title) := by
        intro hmem
        obtain ⟨n, hn, hteq⟩ := List.mem_map.mp hmem
        exact hany (List.any_eq_true.mpr ⟨n, hn, by simp [hteq]⟩)
      simp only [Scene.addNewNode, List.map_append, List.map_cons, List.map_nil]
      rw [List.nodup_append]
      refine ⟨ht, List.nodup_singleton _, ?_⟩
      intro a ha hb
      rw [List.mem_singleton.mp hb] at ha
      exact hnotmem ha
  · intro hne
    unfold onApplyNodeProperties
    rw [if_neg hne]
    by_cases hcol : sc.nodes.any
        (fun n => n.title == rawTitle && !(n.node_id == i)) = true
    · simpa [hcol] using ht
    · rw [if_neg hcol]
      have hno : ∀ n ∈ sc.nodes, ¬(n.title = rawTitle ∧ n.node_id ≠ i) := by
        intro n hn hcontra
        refine hcol (List.any_eq_true.mpr ⟨n, hn, ?_⟩)
        simp [hcontra.1, hcontra.2]
      have hmap : ((sc.setTitle i rawTitle).nodes.map (·.title))
          = sc.nodes.map (fun n =>
              if n.node_id == i then rawTitle else n.title) := by
        simp only [Scene.setTitle, List.map_map]
        refine List.map_congr_left (fun n _ => ?_)
        by_cases hni : n.node_id == i
        · have hni2 : n.node_id = i := by simpa using hni
          simp [hni, hni2]
        · have hni2 : ¬ n.node_id = i := by simpa using hni
          simp [hni, hni2]
      rw [hmap]
      have hpid : sc.nodes.Pairwise (fun a b => a.node_id ≠ b.node_id) :=
        List.pairwise_map.mp hid
      have hpt : sc.nodes.Pairwise (fun a b => a.title ≠ b.title) :=
        List.pairwise_map.mp ht
      show (sc.nodes.map fun n =>
          if n.node_id == i then rawTitle else n.title).Pairwise (· ≠ ·)
      rw [List.pairwise_map]
      refine (hpid.and hpt).imp_of_mem ?_
      intro a b ha hb hab
      by_cases hai : a.node_id == i
      · by_cases hbi : b.node_id == i
        · exact absurd (by
            have h1 : a.node_id = i := by simpa using hai
            have h2 : b.node_id = i := by simpa using hbi
            rw [h1, h2]) hab.1
        · simp only [hai, hbi, if_true, Bool.false_eq_true, if_false]
          intro heq
          exact hno b hb ⟨heq.symm, by simpa using hbi⟩
      · by_cases hbi : b.node_id == i
        · simp only [hai, hbi, if_true, Bool.false_eq_true, if_false]
          intro heq
          exact hno a ha ⟨heq, by simpa using hai⟩
        · simp only [hai, hbi, Bool.false_eq_true, if_false]
          exact hab.2

/-- Witness for C7 amended: on the concrete two-node scene, creating another
`Node_2` is rejected, and a non-empty rename keeps titles distinct. -/
theorem title_uniqueness_amended_witness :
    onAddNodeDialog "CWD" sceneNamedNode2B "Node_2" [] "p" = none ∧
    ((onApplyNodeProperties sceneNamedNode2B 2 "C").nodes.map (·.title)).Nodup := by
  constructor
  · exact (title_uniqueness_amended "CWD" sceneNamedNode2B "Node_2" [] "p"
      2 "C" (by decide) (by decide)).1 (by decide)
  · exact (title_uniqueness_amended "CWD" sceneNamedNode2B "Node_2" [] "p"
      2 "C" (by decide) (by decide)).2.2 (by decide)

/-! ## Claim C10 — inheriting build settings at creation -/

/-- C10 evidence: with a base node selected, the accepted creation dialog
raises `AttributeError` (the handler calls `.get` on the list of checked
attribute names), so an inheriting creation never produces a node at all;
and the dataflow it attempts — `bs = base_node.buildSettings()` passed to
`addNewNode` with no copy — makes the two nodes share one `BuildSettings`
object, so the in-place batch edit of node 2's `build_dir` is observed by
node 1 as well (it changes from `CWD/build` to `X`), contradicting
copy semantics. -/
theorem inherit_build_settings_evidence :
    heapAddNodeDialog heapSceneA "B" 0 ["build_settings"]
        = .error (.attributeError "'list' object has no attribute 'get'") ∧
    observedBuildDir (heapSceneA.addNewNode "B" (some 0)) 1
        = observedBuildDir (heapSceneA.addNewNode "B" (some 0)) 2 ∧
    observedBuildDir heapSceneA 1 = some "CWD/build" ∧
    observedBuildDir
        (batchSetBuildDir (heapSceneA.addNewNode "B" (some 0)) 2 "X") 1
        = some "X" := by
  refine ⟨rfl, by decide, by decide, by decide⟩

/-! ## Claim C1 — correctness of `topologicalSort`

The development follows the classical Kahn invariant: at every point of the
loop, `in_degree[c]` equals the number of edges into `c` whose source has
not been emitted yet (`inCount`), emitted and queued nodes are pairwise
distinct scene nodes with `inCount` zero, sources of emitted/queued targets
are already emitted (in order), and every node whose `inCount` reached zero
is emitted or queued.  Those invariants give all four conclusions at the
loop's natural end, and also bound the iteration count by the node count,
which shows the fuel `|nodes| + 1` is never exhausted. -/

/-- Characterization of the in-degree function after the inner child loop:
each child of the popped node loses one (children are pairwise distinct
because the edge list has no duplicate pairs). -/
theorem processChildren_fst :
    ∀ (ch : List Nat) (indeg : Nat → Int) (q : List Nat), ch.Nodup →
      ∀ m, (processChildren ch indeg q).1 m
        = if m ∈ ch then indeg m - 1 else indeg m := by
  intro ch
  induction ch with
  | nil => intro indeg q _ m; simp [processChildren]
  | cons c cs ih =>
      intro indeg q hnd m
      have hcns : c ∉ cs := (List.nodup_cons.mp hnd).1
      have hcs : cs.Nodup := (List.nodup_cons.mp hnd).2
      show (processChildren cs _ _).1 m = _
      rw [ih _ _ hcs]
      by_cases hmc : m = c
      · subst hmc
        simp [hcns]
      · by_cases hmcs : m ∈ cs
        · simp [hmcs, hmc]
        · have : m ∉ c :: cs := by simp [hmc, hmcs]
          simp [hmcs, hmc, this]

/-- Characterization of the queue after the inner child loop: exactly the
children whose in-degree was 1 (and thus became 0) are appended, in
adjacency order. -/
theorem processChildren_snd :
    ∀ (ch : List Nat) (indeg : Nat → Int) (q : List Nat), ch.Nodup →
      (processChildren ch indeg q).2
        = q ++ ch.filter (fun c => indeg c == 1) := by
  intro ch
  induction ch with
  | nil => intro indeg q _; simp [processChildren]
  | cons c cs ih =>
      intro indeg q hnd
      have hcns : c ∉ cs := (List.nodup_cons.mp hnd).1
      have hcs : cs.Nodup := (List.nodup_cons.mp hnd).2
      show (processChildren cs (fun m => if m = c then indeg m - 1 else indeg m)
          (if (if c = c then indeg c - 1 else indeg c) = 0 then q ++ [c] else q)).2 = _
      rw [ih _ _ hcs]
      have hfcong : cs.filter (fun x => (if x = c then indeg x - 1 else indeg x) == 1)
          = cs.filter (fun x => indeg x == 1) := by
        refine List.filter_congr (fun x hx => ?_)
        have hxc : x ≠ c := fun hxc => hcns (hxc ▸ hx)
        simp [hxc]
      rw [hfcong]
      have hsplit : (if c = c then indeg c - 1 else indeg c) = indeg c - 1 := by
        simp
      rw [hsplit, List.filter_cons]
      by_cases hc1 : indeg c = 1
      · have h0 : indeg c - 1 = 0 := by omega
        simp [h0, hc1]
      · have h0 : ¬(indeg c - 1 = 0) := by omega
        have hbeq : (indeg c == 1) = false := by
          simpa using hc1
        simp [h0, hbeq]

/-- Membership in an adjacency list is exactly having the edge. -/
theorem mem_adjOf (edges : List (Nat × Nat)) (n c : Nat) :
    c ∈ adjOf edges n ↔ (n, c) ∈ edges := by
  unfold adjOf
  constructor
  · intro h
    obtain ⟨e, he, hec⟩ := List.mem_map.mp h
    obtain ⟨hee, hcond⟩ := List.mem_filter.mp he
    have h1 : e.1 = n := by simpa using hcond
    have hpair : (n, c) = e := by
      cases e
      simp only [Prod.mk.injEq]
      exact ⟨h1.symm, hec.symm⟩
    rw [hpair]
    exact hee
  · intro h
    refine List.mem_map.mpr ⟨(n, c), List.mem_filter.mpr ⟨h, by simp⟩, rfl⟩

/-- Without duplicate edge pairs, an adjacency list has no duplicates. -/
theorem adjOf_nodup (edges : List (Nat × Nat)) (hn : edges.Nodup) (n : Nat) :
    (adjOf edges n).Nodup := by
  unfold adjOf
  refine List.Nodup.map_on ?_ (hn.filter _)
  intro x hx y hy hxy
  have hx1 : x.1 = n := by simpa using (List.mem_filter.mp hx).2
  have hy1 : y.1 = n := by simpa using (List.mem_filter.mp hy).2
  cases x
  cases y
  simp only [Prod.mk.injEq]
  exact ⟨hx1.trans hy1.symm, hxy⟩

/-- Unfolding `inCount` over the first edge. -/
theorem inCount_cons (e : Nat × Nat) (rest : List (Nat × Nat)) (L : List Nat)
    (c : Nat) :
    inCount (e :: rest) L c
      = (if e.2 = c ∧ e.1 ∉ L then 1 else 0) + inCount rest L c := by
  unfold inCount
  rw [List.filter_cons]
  by_cases h : e.2 = c ∧ e.1 ∉ L
  · have hb : (e.2 == c && !(L.contains e.1)) = true := by
      simp only [Bool.and_eq_true, beq_iff_eq, Bool.not_eq_true']
      refine ⟨h.1, ?_⟩
      by_cases hc : L.contains e.1
      · exact absurd (List.elem_iff.mp hc) h.2
      · simpa using hc
    simp only [hb, if_true, List.length_cons, if_pos h]
    omega
  · have hb : (e.2 == c && !(L.contains e.1)) = false := by
      rw [Bool.and_eq_false_iff]
      by_cases h2 : e.2 = c
      · refine Or.inr ?_
        have h1 : e.1 ∈ L := by
          by_contra hnot
          exact h ⟨h2, hnot⟩
        simp [h1]
      · exact Or.inl (by simpa using h2)
    simp [hb, h]

/-- Emitting `n` removes exactly `n`'s contribution to every in-count
(duplicate-free edges contribute at most one edge `(n, c)`). -/
theorem inCount_append (R : List Nat) (n : Nat) (hnR : n ∉ R) (c : Nat) :
    ∀ (edges : List (Nat × Nat)), edges.Nodup →
      inCount edges (R ++ [n]) c + (if (n, c) ∈ edges then 1 else 0)
        = inCount edges R c := by
  intro edges
  induction edges with
  | nil => intro _; simp [inCount]
  | cons e rest ih =>
      intro hnd
      have hrest : rest.Nodup := (List.nodup_cons.mp hnd).2
      have hment : e ∉ rest := (List.nodup_cons.mp hnd).1
      have ihr := ih hrest
      rw [inCount_cons, inCount_cons]
      by_cases he : e = (n, c)
      · subst he
        have hA : ¬((n, c).2 = c ∧ (n, c).1 ∉ R ++ [n]) := by
          intro hcontra
          exact hcontra.2 (by simp)
        have hB : (n, c).2 = c ∧ (n, c).1 ∉ R := ⟨rfl, hnR⟩
        have hmem : ((n, c) ∈ (n, c) :: rest) := by simp
        have hnotrest : (n, c) ∉ rest := hment
        rw [if_pos hmem, if_neg hA, if_pos hB]
        rw [if_neg hnotrest] at ihr
        omega
      · have hcondeq : (e.2 = c ∧ e.1 ∉ R ++ [n]) ↔ (e.2 = c ∧ e.1 ∉ R) := by
          constructor
          · intro hx
            exact ⟨hx.1, fun hmem => hx.2 (by simp [hmem])⟩
          · intro hx
            refine ⟨hx.1, fun hmem => ?_⟩
            rcases List.mem_append.mp hmem with h1 | h1
            · exact hx.2 h1
            · have h1n : e.1 = n := by simpa using h1
              refine he ?_
              cases e
              simp only [Prod.mk.injEq]
              exact ⟨h1n, hx.1⟩
        have hmemiff : ((n, c) ∈ e :: rest) ↔ ((n, c) ∈ rest) := by
          rw [List.mem_cons]
          constructor
          · intro hx
            rcases hx with hx | hx
            · exact absurd hx.symm he
            · exact hx
          · exact Or.inr
        by_cases hc2 : e.2 = c ∧ e.1 ∉ R
        · rw [if_pos hc2, if_pos (hcondeq.mpr hc2)]
          by_cases hmemr : (n, c) ∈ rest
          · rw [if_pos (hmemiff.mpr hmemr)]
            rw [if_pos hmemr] at ihr
            omega
          · rw [if_neg (fun h => hmemr (hmemiff.mp h))]
            rw [if_neg hmemr] at ihr
            omega
        · rw [if_neg hc2, if_neg (fun h => hc2 (hcondeq.mp h))]
          by_cases hmemr : (n, c) ∈ rest
          · rw [if_pos (hmemiff.mpr hmemr)]
            rw [if_pos hmemr] at ihr
            omega
          · rw [if_neg (fun h => hmemr (hmemiff.mp h))]
            rw [if_neg hmemr] at ihr
            omega

/-- A zero in-count means every edge into `c` has an emitted source. -/
theorem inCount_zero_sources (edges : List (Nat × Nat)) (R : List Nat)
    (c : Nat) (h : inCount edges R c = 0) :
    ∀ e ∈ edges, e.2 = c → e.1 ∈ R := by
  intro e he h2
  by_contra hnot
  have hmem : e ∈ edges.filter (fun e => e.2 == c && !(R.contains e.1)) := by
    refine List.mem_filter.mpr ⟨he, ?_⟩
    simp only [Bool.and_eq_true, beq_iff_eq, Bool.not_eq_true']
    refine ⟨h2, ?_⟩
    by_cases hc : R.contains e.1
    · exact absurd (List.elem_iff.mp hc) hnot
    · simpa using hc
  have hz := List.length_eq_zero.mp h
  rw [hz] at hmem
  cases hmem

/-- Before anything is emitted, `inCount` is the initial in-degree. -/
theorem inCount_nil (edges : List (Nat × Nat)) (c : Nat) :
    (inCount edges [] c : Int) = indegInit edges c := by
  unfold inCount indegInit
  congr 2
  refine List.filter_congr fun e he => ?_
  simp

/-- A chain under a transitive relation relates its head to its last
element. -/
theorem chain_rel_last {R : Nat → Nat → Prop} (hR : Transitive R) :
    ∀ (l : List Nat) (a b : Nat), List.Chain R a l → l.getLast? = some b →
      R a b := by
  intro l
  induction l with
  | nil => intro a b _ hlast; cases hlast
  | cons c cs ih =>
      intro a b hchain hlast
      have hac : R a c := (List.chain_cons.mp hchain).1
      have hcs : List.Chain R c cs := (List.chain_cons.mp hchain).2
      cases cs with
      | nil =>
          have : b = c := by
            simpa using hlast.symm
          exact this ▸ hac
      | cons d ds =>
          have hlast2 : (d :: ds).getLast? = some b := by
            simpa [List.getLast?_cons_cons] using hlast
          exact hR hac (ih c b hcs hlast2)

/-- In a duplicate-free list, a two-element sublist orders the indices. -/
theorem sublist_pair_index :
    ∀ (l : List Nat), l.Nodup → ∀ s t : Nat, [s, t].Sublist l →
      l.indexOf s < l.indexOf t := by
  intro l
  induction l with
  | nil => intro _ s t h; cases h
  | cons x xs ih =>
      intro hnd s t h
      have hxnot : x ∉ xs := (List.nodup_cons.mp hnd).1
      have hxs : xs.Nodup := (List.nodup_cons.mp hnd).2
      cases h with
      | cons _ htail =>
          have hs : s ∈ xs := htail.subset (by simp)
          have ht : t ∈ xs := htail.subset (by simp)
          have hsx : s ≠ x := fun hexp => hxnot (hexp ▸ hs)
          have htx : t ≠ x := fun hexp => hxnot (hexp ▸ ht)
          rw [List.indexOf_cons_ne _ (Ne.symm hsx), List.indexOf_cons_ne _ (Ne.symm htx)]
          have := ih hxs s t htail
          omega
      | cons₂ _ htail =>
          have ht : t ∈ xs := htail.subset (by simp)
          have htx : t ≠ x := fun hexp => hxnot (hexp ▸ ht)
          rw [List.indexOf_cons_self, List.indexOf_cons_ne _ (Ne.symm htx)]
          omega

/-- Along the predecessor function of an everywhere-entered set, the
iterates of any member form an edge chain read backwards. -/
theorem chain_iterates (edges : List (Nat × Nat)) (f : Nat → Nat)
    (P : Nat → Prop) (hstep : ∀ x, P x → EdgeStep edges (f x) x ∧ P (f x)) :
    ∀ (d : Nat) (a : Nat), P a →
      List.Chain (EdgeStep edges) (f^[d] a)
        ((List.range d).reverse.map (fun k => f^[k] a)) := by
  have hPiter : ∀ (k : Nat) (a : Nat), P a → P (f^[k] a) := by
    intro k
    induction k with
    | zero => intro a ha; simpa using ha
    | succ m ihm =>
        intro a ha
        rw [Function.iterate_succ_apply']
        exact (hstep _ (ihm a ha)).2
  intro d
  induction d with
  | zero => intro a _; exact List.Chain.nil
  | succ m ihm =>
      intro a ha
      rw [List.range_succ, List.reverse_append]
      simp only [List.reverse_cons, List.reverse_nil, List.nil_append,
        List.cons_append, List.map_cons]
      refine List.chain_cons.mpr ⟨?_, ihm a ha⟩
      rw [Function.iterate_succ_apply']
      exact (hstep _ (hPiter m a ha)).1

/-- A periodic point of such a predecessor function closes a directed
cycle. -/
theorem cycle_of_periodic (edges : List (Nat × Nat)) (f : Nat → Nat)
    (P : Nat → Prop) (hstep : ∀ x, P x → EdgeStep edges (f x) x ∧ P (f x))
    (a : Nat) (ha : P a) (d : Nat) (hd : 0 < d) (hper : f^[d] a = a) :
    CycleIn edges := by
  refine ⟨a, (List.range d).reverse.map (fun k => f^[k] a), ?_, ?_⟩
  · rw [List.getLast?_map, List.getLast?_reverse]
    obtain ⟨m, rfl⟩ := Nat.exists_eq_add_of_lt hd
    rw [List.range_succ_eq_map]
    simp
  · have := chain_iterates edges f P hstep d a ha
    rwa [hper] at this

/-- The Kahn loop invariant: starting from any state whose emitted list and
queue are duplicate-free scene nodes with zero `inCount`, whose in-degree
function tracks `inCount`, whose emitted/queued targets have their sources
emitted first, and in which every zero-`inCount` node is emitted or queued,
the loop — given fuel exceeding the number of missing nodes — ends with an
emitted list that is duplicate-free, within the node set, source-before-
target for every emitted target, and containing every node whose final
`inCount` is zero. -/
theorem kahnLoop_spec (ids : List Nat) (edges : List (Nat × Nat))
    (_hids : ids.Nodup) (hed : edges.Nodup)
    (hedm : ∀ e ∈ edges, e.1 ∈ ids ∧ e.2 ∈ ids) :
    ∀ (fuel : Nat) (queue : List Nat) (indeg : Nat → Int) (result : List Nat),
      (result ++ queue).Nodup →
      (∀ x ∈ result ++ queue, x ∈ ids) →
      (∀ c, indeg c = (inCount edges result c : Int)) →
      (∀ c ∈ result ++ queue, inCount edges result c = 0) →
      (∀ e ∈ edges, (e.2 ∈ result → [e.1, e.2].Sublist result)
          ∧ (e.2 ∈ queue → e.1 ∈ result)) →
      (∀ m ∈ ids, inCount edges result m = 0 → m ∈ result ∨ m ∈ queue) →
      ids.length + 1 ≤ fuel + result.length →
      ((kahnLoop (adjOf edges) fuel queue indeg result).Nodup ∧
       (∀ x ∈ kahnLoop (adjOf edges) fuel queue indeg result, x ∈ ids) ∧
       (∀ e ∈ edges, e.2 ∈ kahnLoop (adjOf edges) fuel queue indeg result →
           [e.1, e.2].Sublist (kahnLoop (adjOf edges) fuel queue indeg result)) ∧
       (∀ m ∈ ids, inCount edges (kahnLoop (adjOf edges) fuel queue indeg result) m = 0 →
           m ∈ kahnLoop (adjOf edges) fuel queue indeg result)) := by
  intro fuel
  induction fuel with
  | zero =>
      intro queue indeg result hI1 hI2 _ _ _ _ hfuel
      exfalso
      have hsub : (result ++ queue).Subperm ids := List.Nodup.subperm hI1 hI2
      have hlen := hsub.length_le
      rw [List.length_append] at hlen
      omega
  | succ fuel ih =>
      intro queue indeg result hI1 hI2 hI3 hI4 hI5 hI6 hfuel
      cases queue with
      | nil =>
          have hk : kahnLoop (adjOf edges) (fuel + 1) [] indeg result = result := rfl
          rw [hk]
          refine ⟨by simpa using hI1, fun x hx => hI2 x (by simpa using hx),
            fun e he h2 => (hI5 e he).1 h2, fun m hm h0 => ?_⟩
          rcases hI6 m hm h0 with h | h
          · exact h
          · cases h
      | cons n qs =>
          have hk : kahnLoop (adjOf edges) (fuel + 1) (n :: qs) indeg result
              = kahnLoop (adjOf edges) fuel
                  (processChildren (adjOf edges n) indeg qs).2
                  (processChildren (adjOf edges n) indeg qs).1
                  (result ++ [n]) := rfl
          rw [hk]
          have hadjnd : (adjOf edges n).Nodup := adjOf_nodup edges hed n
          have hfst := processChildren_fst (adjOf edges n) indeg qs hadjnd
          have hsnd := processChildren_snd (adjOf edges n) indeg qs hadjnd
          have hsplit := List.nodup_append.mp hI1
          have hresnd : result.Nodup := hsplit.1
          have hnqsnd : (n :: qs).Nodup := hsplit.2.1
          have hdisj : result.Disjoint (n :: qs) := hsplit.2.2
          have hnR : n ∉ result := fun h => hdisj h (by simp)
          have hnqs : n ∉ qs := (List.nodup_cons.mp hnqsnd).1
          have hqsnd : qs.Nodup := (List.nodup_cons.mp hnqsnd).2
          have hnids : n ∈ ids := hI2 n (by simp)
          have hQ : ∀ c, inCount edges (result ++ [n]) c
              + (if (n, c) ∈ edges then 1 else 0) = inCount edges result c :=
            fun c => inCount_append result n hnR c edges hed
          have hmemnewly : ∀ c,
              c ∈ (adjOf edges n).filter (fun c => indeg c == 1)
                ↔ ((n, c) ∈ edges ∧ indeg c = 1) := by
            intro c
            rw [List.mem_filter, mem_adjOf]
            simp
          have hnewlyNotOld : ∀ c ∈ (adjOf edges n).filter (fun c => indeg c == 1),
              c ∉ result ++ n :: qs := by
            intro c hc hmem
            have h1 : indeg c = 1 := ((hmemnewly c).mp hc).2
            have h0 : inCount edges result c = 0 := hI4 c hmem
            rw [hI3 c] at h1
            omega
          have hI1new : ((result ++ [n])
              ++ (qs ++ (adjOf edges n).filter (fun c => indeg c == 1))).Nodup := by
            rw [List.nodup_append]
            refine ⟨?_, ?_, ?_⟩
            · rw [List.nodup_append]
              refine ⟨hresnd, List.nodup_singleton n, ?_⟩
              intro a ha hb
              rw [List.mem_singleton.mp hb] at ha
              exact hnR ha
            · rw [List.nodup_append]
              refine ⟨hqsnd, hadjnd.filter _, ?_⟩
              intro a ha hb
              exact hnewlyNotOld a hb (by simp [ha])
            · intro a ha hb
              rcases List.mem_append.mp ha with h1 | h1
              · rcases List.mem_append.mp hb with h2 | h2
                · exact hdisj h1 (by simp [h2])
                · exact hnewlyNotOld a h2 (by simp [h1])
              · rcases List.mem_append.mp hb with h2 | h2
                · have : n ∈ qs := (List.mem_singleton.mp h1) ▸ h2
                  exact hnqs this
                · exact hnewlyNotOld a h2 (by simp [List.mem_singleton.mp h1])
          have hI2new : ∀ x ∈ (result ++ [n])
              ++ (qs ++ (adjOf edges n).filter (fun c => indeg c == 1)), x ∈ ids := by
            intro x hx
            rcases List.mem_append.mp hx with h1 | h1
            · rcases List.mem_append.mp h1 with h2 | h2
              · exact hI2 x (by simp [h2])
              · exact (List.mem_singleton.mp h2) ▸ hnids
            · rcases List.mem_append.mp h1 with h2 | h2
              · exact hI2 x (by simp [h2])
              · exact (hedm _ ((hmemnewly x).mp h2).1).2
          have hI3new : ∀ c, (processChildren (adjOf edges n) indeg qs).1 c
              = (inCount edges (result ++ [n]) c : Int) := by
            intro c
            rw [hfst c]
            by_cases hc : c ∈ adjOf edges n
            · have hedge : (n, c) ∈ edges := (mem_adjOf edges n c).mp hc
              have hq := hQ c
              rw [if_pos hedge] at hq
              rw [if_pos hc, hI3 c]
              omega
            · have hedge : (n, c) ∉ edges := fun h => hc ((mem_adjOf edges n c).mpr h)
              have hq := hQ c
              rw [if_neg hedge] at hq
              rw [if_neg hc, hI3 c]
              omega
          have hI4new : ∀ c ∈ (result ++ [n])
              ++ (qs ++ (adjOf edges n).filter (fun c => indeg c == 1)),
              inCount edges (result ++ [n]) c = 0 := by
            intro c hc
            have hq := hQ c
            rcases List.mem_append.mp hc with h1 | h1
            · have h0 : inCount edges result c = 0 := by
                rcases List.mem_append.mp h1 with h2 | h2
                · exact hI4 c (by simp [h2])
                · exact hI4 c (by simp [List.mem_singleton.mp h2])
              by_cases hcd : (n, c) ∈ edges
              · rw [if_pos hcd] at hq; omega
              · rw [if_neg hcd] at hq; omega
            · rcases List.mem_append.mp h1 with h2 | h2
              · have h0 : inCount edges result c = 0 := hI4 c (by simp [h2])
                by_cases hcd : (n, c) ∈ edges
                · rw [if_pos hcd] at hq; omega
                · rw [if_neg hcd] at hq; omega
              · obtain ⟨hedge, h1i⟩ := (hmemnewly c).mp h2
                rw [hI3 c] at h1i
                rw [if_pos hedge] at hq
                omega
          have hI5new : ∀ e ∈ edges,
              (e.2 ∈ result ++ [n] → [e.1, e.2].Sublist (result ++ [n]))
              ∧ (e.2 ∈ qs ++ (adjOf edges n).filter (fun c => indeg c == 1)
                  → e.1 ∈ result ++ [n]) := by
            intro e he
            constructor
            · intro h2
              rcases List.mem_append.mp h2 with hr | hn2
              · exact ((hI5 e he).1 hr).trans (List.sublist_append_left result [n])
              · have hen : e.2 = n := List.mem_singleton.mp hn2
                have hsrc : e.1 ∈ result := (hI5 e he).2 (by simp [hen])
                have h1 : [e.1].Sublist result := List.singleton_sublist.mpr hsrc
                have h2s : [e.2].Sublist [n] := by
                  rw [hen]
                exact List.Sublist.append h1 h2s
            · intro h2
              rcases List.mem_append.mp h2 with hq2 | hnew
              · have : e.1 ∈ result := (hI5 e he).2 (by simp [hq2])
                exact List.mem_append.mpr (Or.inl this)
              · have h0 : inCount edges (result ++ [n]) e.2 = 0 := by
                  obtain ⟨hedge, h1i⟩ := (hmemnewly e.2).mp hnew
                  have hq := hQ e.2
                  rw [if_pos hedge] at hq
                  rw [hI3 e.2] at h1i
                  omega
                exact inCount_zero_sources edges (result ++ [n]) e.2 h0 e he rfl
          have hI6new : ∀ m ∈ ids, inCount edges (result ++ [n]) m = 0 →
              m ∈ result ++ [n]
              ∨ m ∈ qs ++ (adjOf edges n).filter (fun c => indeg c == 1) := by
            intro m hm h0
            by_cases hold : inCount edges result m = 0
            · rcases hI6 m hm hold with h | h
              · exact Or.inl (by simp [h])
              · rcases List.mem_cons.mp h with h | h
                · exact Or.inl (by simp [h])
                · exact Or.inr (by simp [h])
            · have hq := hQ m
              by_cases hcd : (n, m) ∈ edges
              · rw [if_pos hcd] at hq
                have h1i : indeg m = 1 := by
                  rw [hI3 m]
                  omega
                exact Or.inr (List.mem_append.mpr (Or.inr
                  ((hmemnewly m).mpr ⟨hcd, h1i⟩)))
              · rw [if_neg hcd] at hq
                omega
          have hfuelnew : ids.length + 1 ≤ fuel + (result ++ [n]).length := by
            rw [List.length_append]
            simp only [List.length_singleton]
            omega
          have := ih (qs ++ (adjOf edges n).filter (fun c => indeg c == 1))
            (processChildren (adjOf edges n) indeg qs).1 (result ++ [n])
            hI1new hI2new hI3new hI4new hI5new hI6new hfuelnew
          rwa [← hsnd] at this

/-- C1: `topologicalSort` IS Kahn's algorithm with a FIFO ready queue seeded
and served in node insertion order (the embedding above is its direct
transcription: the dictionaries are keyed in `self.nodes` order and the
`deque` pops at the front / appends at the back).  For every well-formed
graph state: the sort returns `None` exactly when the edge set contains a
cycle — never a partial ordering — and whatever sequence it returns is a
permutation of all nodes in which, for every edge `(s, t)`, `s` precedes
`t`. -/
theorem topologicalSort_kahn (sc : Scene) (hwf : SceneWF sc) :
    (sc.topologicalSort = none ↔ CycleIn sc.edges) ∧
    (∀ l, sc.topologicalSort = some l →
        l.Perm sc.ids ∧ ∀ e ∈ sc.edges, [e.1, e.2].Sublist l) := by
  classical
  obtain ⟨hids, hed, hedm⟩ := hwf
  have hval : sc.topologicalSort
      = (if (kahnLoop (adjOf sc.edges) (sc.ids.length + 1)
            (sc.ids.filter (fun n => indegInit sc.edges n == 0))
            (indegInit sc.edges) []).length < sc.ids.length
         then none
         else some (kahnLoop (adjOf sc.edges) (sc.ids.length + 1)
            (sc.ids.filter (fun n => indegInit sc.edges n == 0))
            (indegInit sc.edges) [])) := rfl
  set queue0 := sc.ids.filter (fun n => indegInit sc.edges n == 0) with hq0
  set r := kahnLoop (adjOf sc.edges) (sc.ids.length + 1) queue0
      (indegInit sc.edges) [] with hrdef
  have hseedzero : ∀ c ∈ queue0, inCount sc.edges [] c = 0 := by
    intro c hc
    have hbeq := (List.mem_filter.mp hc).2
    have : indegInit sc.edges c = 0 := by simpa using hbeq
    rw [← inCount_nil] at this
    omega
  have hpost := kahnLoop_spec sc.ids sc.edges hids hed hedm
    (sc.ids.length + 1) queue0 (indegInit sc.edges) []
    (by simpa using hids.filter _)
    (by
      intro x hx
      have hx2 : x ∈ queue0 := by simpa using hx
      rw [hq0] at hx2
      exact (List.mem_filter.mp hx2).1)
    (fun c => (inCount_nil sc.edges c).symm)
    (by
      intro c hc
      exact hseedzero c (by simpa using hc))
    (by
      intro e he
      refine ⟨?_, ?_⟩
      · intro h2
        cases h2
      · intro h2
        exact inCount_zero_sources sc.edges [] e.2 (hseedzero e.2 h2) e he rfl)
    (by
      intro m hm h0
      refine Or.inr ?_
      rw [hq0]
      have hbeq : (indegInit sc.edges m == 0) = true := by
        have hni := inCount_nil sc.edges m
        rw [h0] at hni
        simp [← hni]
      exact List.mem_filter.mpr ⟨hm, hbeq⟩)
    (by omega)
  obtain ⟨hrnd, hrsub, hrord, hrcomp⟩ := hpost
  rw [← hrdef] at hrnd hrord hrcomp
  have hrsub2 : ∀ x ∈ r, x ∈ sc.ids := by
    rw [hrdef]
    exact hrsub
  constructor
  · constructor
    · intro hnone
      rw [hval] at hnone
      by_cases hlen : r.length < sc.ids.length
      · have hmiss : ∃ m, m ∈ sc.ids ∧ m ∉ r := by
          by_contra hnomiss
          push_neg at hnomiss
          have hsub2 : sc.ids.Subperm r := hids.subperm hnomiss
          have := hsub2.length_le
          omega
        obtain ⟨m0, hm0i, hm0r⟩ := hmiss
        have hpred : ∀ m, m ∈ sc.ids ∧ m ∉ r →
            ∃ e, e ∈ sc.edges ∧ e.2 = m ∧ e.1 ∉ r := by
          intro m hm
          have hnz : inCount sc.edges r m ≠ 0 :=
            fun h0 => hm.2 (hrcomp m hm.1 h0)
          have hne : sc.edges.filter (fun e => e.2 == m && !(r.contains e.1)) ≠ [] := by
            intro hnil
            refine hnz ?_
            unfold inCount
            rw [hnil]
            rfl
          obtain ⟨e, he⟩ := List.exists_mem_of_ne_nil _ hne
          have hmf := List.mem_filter.mp he
          have hconds := hmf.2
          simp only [Bool.and_eq_true, beq_iff_eq, Bool.not_eq_true'] at hconds
          refine ⟨e, hmf.1, hconds.1, ?_⟩
          have hfalse := hconds.2
          intro hmem
          have hcon : r.contains e.1 = true := List.elem_iff.mpr hmem
          rw [hcon] at hfalse
          cases hfalse
        set f : Nat → Nat := fun m =>
          if h : ∃ e, e ∈ sc.edges ∧ e.2 = m ∧ e.1 ∉ r
          then h.choose.1 else m with hfdef
        have hfspec : ∀ m, (m ∈ sc.ids ∧ m ∉ r) →
            EdgeStep sc.edges (f m) m ∧ (f m ∈ sc.ids ∧ f m ∉ r) := by
          intro m hm
          have hex : ∃ e, e ∈ sc.edges ∧ e.2 = m ∧ e.1 ∉ r := hpred m hm
          have hch := hex.choose_spec
          have hfm : f m = hex.choose.1 := dif_pos hex
          have hpm : (hex.choose.1, m) = hex.choose := by
            rw [Prod.ext_iff]
            exact ⟨rfl, hch.2.1.symm⟩
          refine ⟨?_, ?_, ?_⟩
          · show (f m, m) ∈ sc.edges
            rw [hfm, hpm]
            exact hch.1
          · rw [hfm]
            exact (hedm hex.choose hch.1).1
          · rw [hfm]
            exact hch.2.2
        have hiters : ∀ k, f^[k] m0 ∈ sc.ids ∧ f^[k] m0 ∉ r := by
          intro k
          induction k with
          | zero => exact ⟨hm0i, hm0r⟩
          | succ j ihj =>
              rw [Function.iterate_succ_apply']
              exact (hfspec _ ihj).2
        have hmaps : ∀ i ∈ Finset.range (sc.ids.length + 1),
            f^[i] m0 ∈ sc.ids.toFinset := by
          intro i _
          exact List.mem_toFinset.mpr (hiters i).1
        have hcard : sc.ids.toFinset.card < (Finset.range (sc.ids.length + 1)).card := by
          rw [Finset.card_range]
          have := sc.ids.toFinset_card_le
          omega
        obtain ⟨i, hi, j, hj, hij, heq⟩ :=
          Finset.exists_ne_map_eq_of_card_lt_of_maps_to hcard hmaps
        have hcase : ∀ i j : Nat, i < j → f^[i] m0 = f^[j] m0 → CycleIn sc.edges := by
          intro i j hlt heqij
          have hUa : f^[i] m0 ∈ sc.ids ∧ f^[i] m0 ∉ r := hiters i
          have hiter : f^[(j - i) + i] m0 = f^[j - i] (f^[i] m0) :=
            Function.iterate_add_apply f (j - i) i m0
          rw [Nat.sub_add_cancel (le_of_lt hlt)] at hiter
          have hper : f^[j - i] (f^[i] m0) = f^[i] m0 := by
            rw [← hiter, ← heqij]
          exact cycle_of_periodic sc.edges f
            (fun m => m ∈ sc.ids ∧ m ∉ r) hfspec
            (f^[i] m0) hUa (j - i) (by omega) hper
        rcases Nat.lt_or_ge i j with hlt | hge
        · exact hcase i j hlt heq
        · have hlt2 : j < i := by omega
          exact hcase j i hlt2 heq.symm
      · rw [if_neg hlen] at hnone
        cases hnone
    · intro hcyc
      rw [hval]
      by_cases hlen : r.length < sc.ids.length
      · rw [if_pos hlen]
      · exfalso
        have hperm : r.Perm sc.ids :=
          (hrnd.subperm hrsub2).perm_of_length_le (by omega)
        obtain ⟨a, l, hlast, hchain⟩ := hcyc
        have hedgeorder : ∀ s t : Nat, EdgeStep sc.edges s t →
            r.indexOf s < r.indexOf t := by
          intro s t hst
          have ht : t ∈ r := hperm.mem_iff.mpr (hedm (s, t) hst).2
          exact sublist_pair_index r hrnd s t (hrord (s, t) hst ht)
        have htrans : Transitive (fun s t : Nat => r.indexOf s < r.indexOf t) :=
          fun x y z h1 h2 => h1.trans h2
        have hchain2 : List.Chain (fun s t => r.indexOf s < r.indexOf t) a l :=
          List.Chain.imp (fun s t => hedgeorder s t) hchain
        have := chain_rel_last htrans l a a hchain2 hlast
        omega
  · intro l hl
    rw [hval] at hl
    by_cases hlen : r.length < sc.ids.length
    · rw [if_pos hlen] at hl
      cases hl
    · rw [if_neg hlen] at hl
      have hlr : l = r := (Option.some.injEq _ _).mp hl.symm
      subst hlr
      have hperm : r.Perm sc.ids :=
        (hrnd.subperm hrsub2).perm_of_length_le (by omega)
      refine ⟨hperm, ?_⟩
      intro e he
      have ht : e.2 ∈ r := hperm.mem_iff.mpr (hedm e he).2
      exact hrord e he ht

/-- Witness for C1: the A→B→C chain sorts to `[1, 2, 3]` — a permutation
respecting both edges — and closing the cycle C→A makes the sort report
`None` (the spec §8 end-to-end scenarios). -/
theorem topologicalSort_kahn_witness :
    chainScene.topologicalSort = some [1, 2, 3] ∧
    ([1, 2, 3] : List Nat).Perm chainScene.ids ∧
    (∀ e ∈ chainScene.edges, [e.1, e.2].Sublist ([1, 2, 3] : List Nat)) ∧
    cycleScene.topologicalSort = none := by
  have hsort : chainScene.topologicalSort = some [1, 2, 3] := by decide
  have hwf1 : SceneWF chainScene := by
    unfold SceneWF
    refine ⟨by decide, by decide, by decide⟩
  have hwf2 : SceneWF cycleScene := by
    unfold SceneWF
    refine ⟨by decide, by decide, by decide⟩
  have h1 := (topologicalSort_kahn chainScene hwf1).2 [1, 2, 3] hsort
  have hcyc : CycleIn cycleScene.edges := by
    refine ⟨1, [2, 3, 1], rfl, ?_⟩
    refine List.Chain.cons ?_ (List.Chain.cons ?_ (List.Chain.cons ?_ List.Chain.nil))
    · unfold EdgeStep
      decide
    · unfold EdgeStep
      decide
    · unfold EdgeStep
      decide
  have h2 := (topologicalSort_kahn cycleScene hwf2).1.mpr hcyc
  exact ⟨hsort, h1.1, h1.2, h2⟩
